import Mathlib

/-!
# Verification of the cluster-orchestrator core of `server.js`

This file gives a shallow embedding of the resource-accounting scheduler and
failure-recovery engine implemented in `src/server.js` of the
Kubernetes-Microservices-Simulation repository, and proves (or refutes)
the frozen claims about it.

Modelling conventions:

* The two JavaScript `Map`s (`nodes`, `pods`) are insertion-ordered, so they
  are embedded as association lists (`List Node`, `List Pod`); `Map.get` is
  lookup of the (unique) entry with a given id, in-place mutation of a
  looked-up object is a pointwise rewrite of the entry with the matching id,
  and `Map.delete` removes it.  `Map.set` with a fresh key appends at the
  end, which matches JavaScript's insertion-order iteration.
* JavaScript numbers are embedded as `Int` (all arithmetic in the relevant
  code is integral; the HTTP layer parses capacities with `parseInt`).
* Statuses are the literal strings the source stores
  (`"healthy"`/`"unhealthy"`, `"running"`/`"pending"`/`"error"`).
* Calls to the Runtime Driver (`DockerManager`) are blocking boundaries whose
  result the scheduler inspects.  Each embedded operation therefore takes the
  driver outcome as an explicit parameter: `Option String` for a launch
  (`some containerId` on success, `none` on failure) and `Bool` for a destroy
  (whose outcome the source logs and otherwise ignores).
* `Date.now()` is an explicit `now : Int` parameter; the generated pod id is
  an explicit parameter as well (the source draws it from `Date.now()` plus a
  random suffix; freshness is recorded as a side condition where the step
  relation needs it).
-/

set_option linter.unusedVariables false

namespace KubeSim

/-- A cluster node, mirroring the object literal built in
`NodeManager.addNode`. -/
structure Node where
  id : String
  containerId : String
  cpuCores : Int
  availableCpuCores : Int
  pods : List String
  lastHeartbeat : Int
  status : String
deriving DecidableEq, Repr

/-- A pod record, mirroring the object literal built in
`PodScheduler.schedulePod`. -/
structure Pod where
  id : String
  cpuRequirement : Int
  nodeId : String
  containerId : String
  status : String
  createdAt : Int
deriving DecidableEq, Repr

/-- The whole mutable state of the server: the two `Map`s plus the
process-wide `currentSchedulingAlgorithm`. -/
structure ClusterState where
  nodes : List Node
  pods : List Pod
  algo : String
deriving DecidableEq, Repr

/-- Result of one operation: the state after the call, the `success` flag of
the returned object, and the `message` (empty on success paths that return a
payload instead of a message). -/
structure OpOut where
  state : ClusterState
  ok : Bool
  msg : String
deriving DecidableEq, Repr

/-! ## Association-list primitives modelling the JavaScript `Map`s -/

/-- `Map.get`: the first (by key uniqueness, the only) entry with key `i`. -/
def getBy (key : α → String) (i : String) : List α → Option α
  | [] => none
  | a :: l => if key a = i then some a else getBy key i l

/-- In-place mutation of the entry with key `i` (JavaScript mutates the object
returned by `Map.get`; entry order is unchanged). -/
def updBy (key : α → String) (i : String) (f : α → α) : List α → List α
  | [] => []
  | a :: l => (if key a = i then f a else a) :: updBy key i f l

/-- `Map.delete`. -/
def delBy (key : α → String) (i : String) : List α → List α
  | [] => []
  | a :: l => if key a = i then delBy key i l else a :: delBy key i l

/-! ## The operations of `server.js`

Each definition is a direct translation of the correspondingly named function
of the source; the JavaScript in-place mutations of looked-up `Map` entries
become `updBy` rewrites applied in the same order as the source statements. -/

/-- `NodeManager.addNode(nodeId, cpuCores, containerId)` (`server.js` 116-133).
`now` is `Date.now()`. -/
def addNode (s : ClusterState) (nodeId : String) (cpuCores : Int)
    (containerId : String) (now : Int) : OpOut :=
  if (getBy Node.id nodeId s.nodes).isSome then
    ⟨s, false, "Node " ++ nodeId ++ " already exists"⟩
  else
    ⟨{ s with nodes := s.nodes ++
        [⟨nodeId, containerId, cpuCores, cpuCores, [], now, "healthy"⟩] },
     true, ""⟩

/-- The `reduce` in `NodeManager.updateNode` (`server.js` 152-155): total CPU
requirement of the listed pod ids, counting ids missing from the pod store
as `0`. -/
def totalPodCpu (s : ClusterState) (podIds : List String) : Int :=
  podIds.foldl
    (fun total podId =>
      total + (match getBy Pod.id podId s.pods with
               | some pod => pod.cpuRequirement
               | none => 0))
    0

/-- `NodeManager.updateNode(nodeId, updates)` (`server.js` 143-169); the only
updatable field is `cpuCores` and `newCpu = none` models an update object
without that field. -/
def updateNode (s : ClusterState) (nodeId : String) (newCpu : Option Int) : OpOut :=
  match getBy Node.id nodeId s.nodes with
  | none => ⟨s, false, "Node " ++ nodeId ++ " not found"⟩
  | some node =>
    match newCpu with
    | none => ⟨s, true, ""⟩
    | some c =>
      if c < totalPodCpu s node.pods then
        ⟨s, false,
         "Cannot reduce CPU cores to " ++ toString c ++ ". Current pods require " ++
           toString (totalPodCpu s node.pods) ++ " cores."⟩
      else
        let f : Node → Node := fun n =>
          { n with
            availableCpuCores := c - (n.cpuCores - n.availableCpuCores),
            cpuCores := c }
        ⟨{ s with nodes := updBy Node.id nodeId f s.nodes }, true, ""⟩

/-- `NodeManager.removeNode(nodeId)` (`server.js` 181-197). -/
def removeNode (s : ClusterState) (nodeId : String) : OpOut :=
  match getBy Node.id nodeId s.nodes with
  | none => ⟨s, false, "Node " ++ nodeId ++ " not found"⟩
  | some node =>
    if node.pods.length > 0 then
      ⟨s, false,
       "Cannot remove node " ++ nodeId ++ ". It still has " ++
         toString node.pods.length ++ " pods. Reschedule or delete pods first."⟩
    else
      ⟨{ s with nodes := delBy Node.id nodeId s.nodes }, true,
       "Node " ++ nodeId ++ " removed successfully"⟩

/-- The healthy-and-fits filter of `PodScheduler._findSuitableNode`
(`server.js` 248-250). -/
def nodeIsCandidate (cpuRequirement : Int) (n : Node) : Bool :=
  n.status == "healthy" && decide (cpuRequirement ≤ n.availableCpuCores)

/-- Stable insertion of `x` into a list sorted by ascending key: `x` goes in
front of the first element whose key is not smaller.  Used to model
JavaScript's `Array.prototype.sort`, which is required to be stable. -/
def insertSorted (k : Node → Int) (x : Node) : List Node → List Node
  | [] => [x]
  | y :: ys => if k x ≤ k y then x :: y :: ys else y :: insertSorted k x ys

/-- Stable sort by ascending key, modelling `healthyNodes.sort(cmp)` where
`cmp(a, b) = k a - k b` (for the worst-fit comparator `b.availableCpuCores -
a.availableCpuCores` the key is the negated available capacity). -/
def sortByKey (k : Node → Int) : List Node → List Node
  | [] => []
  | x :: xs => insertSorted k x (sortByKey k xs)

/-- `PodScheduler._findSuitableNode(cpuRequirement)` (`server.js` 247-272).
The `switch` falls through to first-fit for any algorithm string other than
`"best-fit"` and `"worst-fit"` (its `default` branch). -/
def findSuitableNode (s : ClusterState) (cpuRequirement : Int) : Option String :=
  let healthyNodes := s.nodes.filter (nodeIsCandidate cpuRequirement)
  if healthyNodes.isEmpty then none
  else if s.algo = "best-fit" then
    (sortByKey (fun n => n.availableCpuCores) healthyNodes).head?.map Node.id
  else if s.algo = "worst-fit" then
    (sortByKey (fun n => -n.availableCpuCores) healthyNodes).head?.map Node.id
  else
    healthyNodes.head?.map Node.id

/-- `PodScheduler.schedulePod(cpuRequirement)` (`server.js` 202-245).
`podId` is the generated `pod-...` identifier, `launch` the outcome of
`DockerManager.launchPodContainer` and `now` is `Date.now()`. -/
def schedulePod (s : ClusterState) (podId : String) (cpuRequirement : Int)
    (launch : Option String) (now : Int) : OpOut :=
  match findSuitableNode s cpuRequirement with
  | none => ⟨s, false, "No suitable node found for pod scheduling"⟩
  | some nodeId =>
    let reserve : Node → Node := fun n =>
      { n with
        availableCpuCores := n.availableCpuCores - cpuRequirement,
        pods := n.pods ++ [podId] }
    let s1 : ClusterState := { s with nodes := updBy Node.id nodeId reserve s.nodes }
    match launch with
    | some containerId =>
      ⟨{ s1 with pods := s1.pods ++
          [⟨podId, cpuRequirement, nodeId, containerId, "running", now⟩] },
       true, ""⟩
    | none =>
      let release : Node → Node := fun n =>
        { n with
          availableCpuCores := n.availableCpuCores + cpuRequirement,
          pods := n.pods.filter (fun i => i != podId) }
      ⟨{ s1 with nodes := updBy Node.id nodeId release s1.nodes },
       false, "Failed to create pod container"⟩

/-- `PodScheduler.updatePod(podId, updates)` (`server.js` 282-310); the only
updatable field is `cpuRequirement`. -/
def updatePod (s : ClusterState) (podId : String) (newReq : Option Int) : OpOut :=
  match getBy Pod.id podId s.pods with
  | none => ⟨s, false, "Pod " ++ podId ++ " not found"⟩
  | some pod =>
    match newReq with
    | none => ⟨s, true, ""⟩
    | some r =>
      match getBy Node.id pod.nodeId s.nodes with
      | none => ⟨s, false, "Node " ++ pod.nodeId ++ " not found"⟩
      | some node =>
        if node.availableCpuCores < r - pod.cpuRequirement then
          ⟨s, false,
           "Node " ++ pod.nodeId ++
             " does not have enough resources for the updated CPU requirement"⟩
        else
          let f : Node → Node := fun n =>
            { n with availableCpuCores :=
                n.availableCpuCores - (r - pod.cpuRequirement) }
          let g : Pod → Pod := fun p => { p with cpuRequirement := r }
          ⟨{ s with
              nodes := updBy Node.id pod.nodeId f s.nodes,
              pods := updBy Pod.id podId g s.pods },
           true, ""⟩

/-- `PodScheduler.removePod(podId)` (`server.js` 312-336). `destroyOk` is the
outcome of `DockerManager.removeContainer`, which the source logs and
otherwise ignores. -/
def removePod (s : ClusterState) (podId : String) (destroyOk : Bool) : OpOut :=
  match getBy Pod.id podId s.pods with
  | none => ⟨s, false, "Pod " ++ podId ++ " not found"⟩
  | some pod =>
    let release : Node → Node := fun n =>
      { n with
        availableCpuCores := n.availableCpuCores + pod.cpuRequirement,
        pods := n.pods.filter (fun i => i != podId) }
    let s1 : ClusterState :=
      match getBy Node.id pod.nodeId s.nodes with
      | some _ => { s with nodes := updBy Node.id pod.nodeId release s.nodes }
      | none => s
    ⟨{ s1 with pods := delBy Pod.id podId s1.pods }, true,
     "Pod " ++ podId ++ " removed successfully"⟩

/-- `PodScheduler.reschedulePod(podId)` (`server.js` 338-397). `destroyOk` is
the outcome of removing the old container (logged, non-fatal) and `launch`
the outcome of `DockerManager.launchPodContainer` on the new node. -/
def reschedulePod (s : ClusterState) (podId : String) (destroyOk : Bool)
    (launch : Option String) : OpOut :=
  match getBy Pod.id podId s.pods with
  | none => ⟨s, false, "Pod " ++ podId ++ " not found"⟩
  | some pod =>
    let currentNodeId : Option String := (getBy Node.id pod.nodeId s.nodes).map Node.id
    let detach : Node → Node := fun n =>
      { n with
        pods := n.pods.filter (fun i => i != podId),
        availableCpuCores := n.availableCpuCores + pod.cpuRequirement }
    let attach : Node → Node := fun n =>
      { n with
        pods := n.pods ++ [podId],
        availableCpuCores := n.availableCpuCores - pod.cpuRequirement }
    let s1 : ClusterState :=
      match currentNodeId with
      | some cid => { s with nodes := updBy Node.id cid detach s.nodes }
      | none => s
    match findSuitableNode s1 pod.cpuRequirement with
    | none =>
      let toPending : Pod → Pod := fun p => { p with status := "pending" }
      ⟨{ s1 with pods := updBy Pod.id podId toPending s1.pods },
       false, "No suitable node found for pod rescheduling"⟩
    | some newNodeId =>
      let setNode : Pod → Pod := fun p => { p with nodeId := newNodeId }
      let s2 : ClusterState := { s1 with
        nodes := updBy Node.id newNodeId attach s1.nodes,
        pods := updBy Pod.id podId setNode s1.pods }
      match launch with
      | some containerId =>
        let commit : Pod → Pod := fun p =>
          { p with containerId := containerId, status := "running" }
        ⟨{ s2 with pods := updBy Pod.id podId commit s2.pods }, true, ""⟩
      | none =>
        let s3 : ClusterState :=
          { s2 with nodes := updBy Node.id newNodeId detach s2.nodes }
        match currentNodeId with
        | some cid =>
          let setBack : Pod → Pod := fun p => { p with nodeId := cid }
          ⟨{ s3 with
              nodes := updBy Node.id cid attach s3.nodes,
              pods := updBy Pod.id podId setBack s3.pods },
           false, "Failed to reschedule pod"⟩
        | none =>
          let toError : Pod → Pod := fun p => { p with status := "error" }
          ⟨{ s3 with pods := updBy Pod.id podId toError s3.pods },
           false, "Failed to reschedule pod"⟩

/-- `PodScheduler.setSchedulingAlgorithm(algorithm)` (`server.js` 399-405). -/
def setSchedulingAlgorithm (s : ClusterState) (alg : String) : OpOut :=
  if alg = "first-fit" ∨ alg = "best-fit" ∨ alg = "worst-fit" then
    ⟨{ s with algo := alg }, true, ""⟩
  else
    ⟨s, false, "Invalid scheduling algorithm"⟩

/-- `HealthMonitor.recordHeartbeat(nodeId)` (`server.js` 444-452). -/
def recordHeartbeat (s : ClusterState) (nodeId : String) (now : Int) : OpOut :=
  match getBy Node.id nodeId s.nodes with
  | none => ⟨s, false, "Node " ++ nodeId ++ " not found"⟩
  | some _ =>
    let f : Node → Node := fun n => { n with lastHeartbeat := now, status := "healthy" }
    ⟨{ s with nodes := updBy Node.id nodeId f s.nodes }, true, ""⟩

/-- The per-node marking step of `HealthMonitor.checkNodeHealth`
(`server.js` 418-421): a node whose heartbeat is older than
`HEARTBEAT_TIMEOUT = 10000` is set to `"unhealthy"`.  `checkNodeHealth`
itself is this marking followed by `handleNodeFailure`, i.e. a sequential
`reschedulePod` for each pod id listed on the stale node (`server.js`
428-442); the step relation below therefore contains this marking step and
`reschedulePod` as separate steps, of which every `checkNodeHealth` run is a
composition. -/
def markUnhealthy (s : ClusterState) (nodeId : String) : ClusterState :=
  { s with nodes := updBy Node.id nodeId (fun n => { n with status := "unhealthy" }) s.nodes }

/-! ## The placement policy: head of a stable sort is the first extremum -/

/-- The first element of the list attaining the minimal key; auxiliary
characterisation of the head of the stable sort. -/
def minHead (k : Node → Int) : List Node → Option Node
  | [] => none
  | x :: xs =>
    match minHead k xs with
    | none => some x
    | some m => if k x ≤ k m then some x else some m

/-- Modelled from the spec (§4.2): the best-fit choice is "the candidate with
minimum `availableCapacity` (tightest fit); ties broken by insertion order",
i.e. the first candidate in list order whose available capacity is less than
or equal to every candidate's. -/
def bestFitChoice (cands : List Node) : Option Node :=
  cands.find? fun n =>
    cands.all fun m => decide (n.availableCpuCores ≤ m.availableCpuCores)

/-- Modelled from the spec (§4.2): the worst-fit choice is "the candidate
with maximum `availableCapacity` (loosest fit); ties broken by insertion
order". -/
def worstFitChoice (cands : List Node) : Option Node :=
  cands.find? fun n =>
    cands.all fun m => decide (m.availableCpuCores ≤ n.availableCpuCores)

/-! ## Per-operation claims -/

/-! Concrete states for the witnesses. -/

/-- One healthy node `n1` (capacity 4, 2 free) hosting one pod `p1` of
demand 2. -/
def wsA : ClusterState :=
  ⟨[⟨"n1", "c1", 4, 2, ["p1"], 0, "healthy"⟩],
   [⟨"p1", 2, "n1", "cp1", "running", 0⟩], "first-fit"⟩

/-- One healthy empty node `n2` (capacity 4, 4 free). -/
def wsB : ClusterState :=
  ⟨[⟨"n2", "c2", 4, 4, [], 0, "healthy"⟩], [], "first-fit"⟩

/-- One node `A` (capacity 4, fully used by pod `p`) already marked
unhealthy, as in Scenario C after the heartbeat expiry. -/
def wsC : ClusterState :=
  ⟨[⟨"A", "cA", 4, 0, ["p"], 0, "unhealthy"⟩],
   [⟨"p", 4, "A", "cp", "running", 0⟩], "first-fit"⟩

/-- The unhealthy full node `A` of Scenario C plus a healthy empty node `B`
that can receive the relocated pod. -/
def wsD : ClusterState :=
  ⟨[⟨"A", "cA", 4, 0, ["p"], 0, "unhealthy"⟩, ⟨"B", "cB", 8, 8, [], 0, "healthy"⟩],
   [⟨"p", 4, "A", "cp", "running", 0⟩], "first-fit"⟩

/-! ## The public operations as a step relation

The server's public surface (HTTP routes plus the Health-Monitor timer)
issues exactly the calls below.  `checkNodeHealth` is the composition of an
`opMarkUnhealthy` step per stale node with one `opReschedulePod` step per pod
id listed on it (`server.js` 414-442), so every state the running server can
produce is reachable by this step relation. -/

inductive Op where
  | opAddNode (nodeId : String) (cpuCores : Int) (containerId : String) (now : Int)
  | opUpdateNode (nodeId : String) (newCpu : Option Int)
  | opRemoveNode (nodeId : String)
  | opSchedulePod (podId : String) (cpuRequirement : Int) (launch : Option String) (now : Int)
  | opUpdatePod (podId : String) (newReq : Option Int)
  | opRemovePod (podId : String) (destroyOk : Bool)
  | opReschedulePod (podId : String) (destroyOk : Bool) (launch : Option String)
  | opHeartbeat (nodeId : String) (now : Int)
  | opMarkUnhealthy (nodeId : String) (now : Int)
  | opSetAlgorithm (alg : String)
deriving DecidableEq, Repr

def applyOp (s : ClusterState) : Op → ClusterState
  | .opAddNode i c cid now => (addNode s i c cid now).state
  | .opUpdateNode i c => (updateNode s i c).state
  | .opRemoveNode i => (removeNode s i).state
  | .opSchedulePod pid d launch now => (schedulePod s pid d launch now).state
  | .opUpdatePod pid r => (updatePod s pid r).state
  | .opRemovePod pid ok => (removePod s pid ok).state
  | .opReschedulePod pid ok launch => (reschedulePod s pid ok launch).state
  | .opHeartbeat i now => (recordHeartbeat s i now).state
  | .opMarkUnhealthy i _ => markUnhealthy s i
  | .opSetAlgorithm a => (setSchedulingAlgorithm s a).state

/-- The side conditions under which the running server issues each call:
the `POST /api/nodes` route validates `cpuCores > 0` and the `POST
/api/pods` route validates `cpuRequirement > 0` (`server.js` 470, 565); the
generated pod id (`pod-${Date.now()}-${random}`) is fresh; the spec's data
model (§3) declares a workload's `cpuRequirement` a positive integer and
assigns request validation to the transport adapter (§1), so a demand update
carries a positive value; `reschedulePod` is invoked only by
`handleNodeFailure`, on pod ids listed in a node's `pods` array
(`server.js` 435-439); `checkNodeHealth` marks a node unhealthy only when
`now - lastHeartbeat > 10000` (`server.js` 419). -/
def validOp (s : ClusterState) : Op → Bool
  | .opAddNode _ c _ _ => decide (0 < c)
  | .opUpdateNode _ _ => true
  | .opRemoveNode _ => true
  | .opSchedulePod pid d _ _ => decide (0 < d ∧ getBy Pod.id pid s.pods = none)
  | .opUpdatePod _ none => true
  | .opUpdatePod _ (some v) => decide (0 < v)
  | .opRemovePod _ _ => true
  | .opReschedulePod pid _ _ => decide (∃ n ∈ s.nodes, pid ∈ n.pods)
  | .opHeartbeat _ _ => true
  | .opMarkUnhealthy i now =>
      match getBy Node.id i s.nodes with
      | some n => decide (10000 < now - n.lastHeartbeat)
      | none => false
  | .opSetAlgorithm _ => true

/-- The state at server start: both `Map`s empty, algorithm `first-fit`. -/
def initState : ClusterState := ⟨[], [], "first-fit"⟩

/-- The quiescent states of the server: everything reachable from the empty
start state by complete public operations. -/
inductive Reachable : ClusterState → Prop
  | init : Reachable initState
  | step (s : ClusterState) (op : Op) :
      Reachable s → validOp s op = true → Reachable (applyOp s op)

/-- Every id listed in a node's `pods` array belongs to an existing pod
record that points back at that node and is `running`. -/
def NodePodEntriesOk (s : ClusterState) : Prop :=
  ∀ n ∈ s.nodes, ∀ pid ∈ n.pods,
    ∃ p ∈ s.pods, p.id = pid ∧ p.nodeId = n.id ∧ p.status = "running"

/-- Every `running` pod is listed by the node its `nodeId` names. -/
def RunningAttached (s : ClusterState) : Prop :=
  ∀ p ∈ s.pods, p.status = "running" →
    ∃ n ∈ s.nodes, n.id = p.nodeId ∧ p.id ∈ n.pods

/-- The inductive well-formedness invariant of the cluster state: unique ids
in both stores, duplicate-free per-node pod lists, and the (restricted)
bidirectional relation. -/
def WF (s : ClusterState) : Prop :=
  (s.nodes.map Node.id).Nodup ∧
  (s.pods.map Pod.id).Nodup ∧
  (∀ n ∈ s.nodes, n.pods.Nodup) ∧
  NodePodEntriesOk s ∧
  RunningAttached s

/-! ## The Scenario-C trace

`addNode "A" 4`, then `schedulePod 4` (placing pod `"p"` on `A`), then the
health check marks `A` unhealthy at a time past the heartbeat timeout and
`handleNodeFailure` runs `reschedulePod "p"`, which finds no candidate (the
only node is unhealthy) and leaves `"p"` *pending* while restoring `A`'s
capacity.  Finally `PUT /api/pods/p` updates the pending pod's demand from
4 down to 2: `updatePod` adjusts `A`'s `availableCpuCores` by `-(2-4)` even
though `"p"` is no longer in `A.pods`, leaving `availableCpuCores = 6` on a
node with `cpuCores = 4` and an empty pod list. -/

def cexS1 : ClusterState :=
  ⟨[⟨"A", "cA", 4, 4, [], 0, "healthy"⟩], [], "first-fit"⟩

def cexS2 : ClusterState :=
  ⟨[⟨"A", "cA", 4, 0, ["p"], 0, "healthy"⟩],
   [⟨"p", 4, "A", "c1", "running", 0⟩], "first-fit"⟩

def cexS3 : ClusterState :=
  ⟨[⟨"A", "cA", 4, 0, ["p"], 0, "unhealthy"⟩],
   [⟨"p", 4, "A", "c1", "running", 0⟩], "first-fit"⟩

def cexS4 : ClusterState :=
  ⟨[⟨"A", "cA", 4, 4, [], 0, "unhealthy"⟩],
   [⟨"p", 4, "A", "c1", "pending", 0⟩], "first-fit"⟩

def cexS5 : ClusterState :=
  ⟨[⟨"A", "cA", 4, 6, [], 0, "unhealthy"⟩],
   [⟨"p", 2, "A", "c1", "pending", 0⟩], "first-fit"⟩

theorem getBy_mem {key : α → String} {i : String} {l : List α} {a : α}
    (h : getBy key i l = some a) : a ∈ l ∧ key a = i := by
  induction l with
  | nil => cases h
  | cons b l ih =>
    by_cases hb : key b = i
    · simp [getBy, hb] at h
      subst h
      exact ⟨List.mem_cons_self _ _, hb⟩
    · simp [getBy, hb] at h
      rcases ih h with ⟨h1, h2⟩
      exact ⟨List.mem_cons_of_mem _ h1, h2⟩

theorem getBy_eq_none {key : α → String} {i : String} {l : List α} :
    getBy key i l = none ↔ ∀ a ∈ l, key a ≠ i := by
  induction l with
  | nil => simp [getBy]
  | cons b l ih =>
    by_cases hb : key b = i <;> simp [getBy, hb, ih]

theorem mem_updBy {key : α → String} {i : String} {f : α → α} {l : List α} {b : α} :
    b ∈ updBy key i f l ↔ ∃ a ∈ l, b = if key a = i then f a else a := by
  induction l with
  | nil => simp [updBy]
  | cons a l ih =>
    simp only [updBy, List.mem_cons, ih]
    constructor
    · rintro (rfl | ⟨c, hc, rfl⟩)
      · exact ⟨a, Or.inl rfl, rfl⟩
      · exact ⟨c, Or.inr hc, rfl⟩
    · rintro ⟨c, (rfl | hc), rfl⟩
      · exact Or.inl rfl
      · exact Or.inr ⟨c, hc, rfl⟩

theorem updBy_mem_of_mem {key : α → String} {i : String} {f : α → α} {l : List α}
    {a : α} (h : a ∈ l) :
    (if key a = i then f a else a) ∈ updBy key i f l :=
  mem_updBy.mpr ⟨a, h, rfl⟩

theorem map_key_updBy {key : α → String} {i : String} {f : α → α} {l : List α}
    (hf : ∀ a, key (f a) = key a) :
    (updBy key i f l).map key = l.map key := by
  induction l with
  | nil => rfl
  | cons a l ih =>
    by_cases h : key a = i <;> simp [updBy, h, hf, ih]

theorem getBy_updBy_self {key : α → String} {i : String} {f : α → α} {l : List α}
    (hf : ∀ a, key (f a) = key a) :
    getBy key i (updBy key i f l) = (getBy key i l).map f := by
  induction l with
  | nil => rfl
  | cons a l ih =>
    by_cases h : key a = i
    · simp [getBy, updBy, h, hf]
    · simp [getBy, updBy, h, hf, ih]

theorem getBy_updBy_ne {key : α → String} {i j : String} {f : α → α} {l : List α}
    (hf : ∀ a, key (f a) = key a) (hij : j ≠ i) :
    getBy key j (updBy key i f l) = getBy key j l := by
  induction l with
  | nil => rfl
  | cons a l ih =>
    by_cases h : key a = i
    · have h1 : key (f a) ≠ j := by rw [hf, h]; exact Ne.symm hij
      have h2 : key a ≠ j := by rw [h]; exact Ne.symm hij
      simp only [updBy, if_pos h, getBy, if_neg h1, if_neg h2]
      exact ih
    · by_cases h2 : key a = j
      · simp only [updBy, if_neg h, getBy, if_pos h2]
      · simp only [updBy, if_neg h, getBy, if_neg h2]
        exact ih

theorem updBy_eq_self {key : α → String} {i : String} {f : α → α} {l : List α}
    (h : ∀ a ∈ l, key a = i → f a = a) :
    updBy key i f l = l := by
  induction l with
  | nil => rfl
  | cons a l ih =>
    by_cases hk : key a = i
    · simp [updBy, hk, h a (List.mem_cons_self _ _) hk,
        ih fun b hb => h b (List.mem_cons_of_mem _ hb)]
    · simp [updBy, hk, ih fun b hb => h b (List.mem_cons_of_mem _ hb)]

theorem updBy_updBy {key : α → String} {i : String} {f g : α → α} {l : List α}
    (hf : ∀ a, key (f a) = key a) :
    updBy key i g (updBy key i f l) = updBy key i (fun a => g (f a)) l := by
  induction l with
  | nil => rfl
  | cons a l ih =>
    by_cases h : key a = i
    · simp [updBy, h, hf, ih]
    · simp [updBy, h, ih]

theorem updBy_eq_map {key : α → String} {i : String} {f : α → α} {l : List α} :
    updBy key i f l = l.map fun a => if key a = i then f a else a := by
  induction l with
  | nil => rfl
  | cons a l ih => simp [updBy, ih]

theorem updBy_congr {key : α → String} {i : String} {f : α → α} (g : α → α)
    {l : List α} (h : ∀ a ∈ l, key a = i → f a = g a) :
    updBy key i f l = updBy key i g l := by
  induction l with
  | nil => rfl
  | cons a l ih =>
    by_cases hk : key a = i
    · simp [updBy, hk, h a (List.mem_cons_self _ _) hk,
        ih fun b hb => h b (List.mem_cons_of_mem _ hb)]
    · simp [updBy, hk, ih fun b hb => h b (List.mem_cons_of_mem _ hb)]

theorem filter_bne_of_not_mem {l : List String} {x : String} (h : x ∉ l) :
    l.filter (fun i => i != x) = l := by
  apply List.filter_eq_self.mpr
  intro a ha
  simp only [bne_iff_ne, ne_eq, decide_eq_true_eq]
  exact fun hc => h (hc ▸ ha)

theorem filter_bne_append {l : List String} {x : String} :
    (l ++ [x]).filter (fun i => i != x) = l.filter (fun i => i != x) := by
  simp [List.filter_append]

theorem not_mem_filter_bne {l : List String} {x : String} :
    x ∉ l.filter (fun i => i != x) := by
  intro h
  have := (List.mem_filter.mp h).2
  simp at this

theorem mem_delBy {key : α → String} {i : String} {l : List α} {b : α} :
    b ∈ delBy key i l ↔ b ∈ l ∧ key b ≠ i := by
  induction l with
  | nil => simp [delBy]
  | cons a l ih =>
    by_cases h : key a = i
    · simp only [delBy, if_pos h, ih, List.mem_cons]
      constructor
      · rintro ⟨h1, h2⟩; exact ⟨Or.inr h1, h2⟩
      · rintro ⟨h1 | h1, h2⟩
        · subst h1; exact absurd h h2
        · exact ⟨h1, h2⟩
    · simp only [delBy, if_neg h, List.mem_cons, ih]
      constructor
      · rintro (rfl | ⟨h1, h2⟩)
        · exact ⟨Or.inl rfl, h⟩
        · exact ⟨Or.inr h1, h2⟩
      · rintro ⟨rfl | h1, h2⟩
        · exact Or.inl rfl
        · exact Or.inr ⟨h1, h2⟩

theorem map_key_delBy_sublist {key : α → String} {i : String} {l : List α} :
    ((delBy key i l).map key).Sublist (l.map key) := by
  induction l with
  | nil => simp [delBy]
  | cons a l ih =>
    by_cases h : key a = i
    · simp only [delBy, if_pos h, List.map_cons]
      exact ih.cons _
    · simp only [delBy, if_neg h, List.map_cons]
      exact ih.cons₂ _

theorem getBy_unique {key : α → String} {i : String} {l : List α} {a : α}
    (hnd : (l.map key).Nodup) (ha : a ∈ l) (hk : key a = i) :
    getBy key i l = some a := by
  induction l with
  | nil => cases ha
  | cons b l ih =>
    simp only [List.map_cons, List.nodup_cons] at hnd
    rcases List.mem_cons.mp ha with rfl | ha'
    · simp [getBy, hk]
    · have hbne : key b ≠ i := by
        intro hbi
        exact hnd.1 (by rw [hbi, ← hk]; exact List.mem_map_of_mem key ha')
      simp only [getBy, if_neg hbne]
      exact ih hnd.2 ha'

theorem key_inj_of_nodup {key : α → String} {l : List α} {a b : α}
    (hnd : (l.map key).Nodup) (ha : a ∈ l) (hb : b ∈ l) (hk : key a = key b) :
    a = b := by
  have h1 := getBy_unique hnd ha rfl
  have h2 := getBy_unique hnd hb hk.symm
  rw [h1] at h2
  exact Option.some_inj.mp h2

theorem minHead_eq_none {k : Node → Int} {l : List Node} :
    minHead k l = none ↔ l = [] := by
  cases l with
  | nil => simp [minHead]
  | cons x xs =>
    simp only [minHead]
    cases h : minHead k xs with
    | none => simp
    | some m =>
      by_cases hk : k x ≤ k m <;> simp [hk]

theorem minHead_mem {k : Node → Int} {l : List Node} {m : Node}
    (h : minHead k l = some m) : m ∈ l := by
  induction l with
  | nil => cases h
  | cons x xs ih =>
    simp only [minHead] at h
    cases h2 : minHead k xs with
    | none =>
      rw [h2] at h
      simp at h
      subst h
      exact List.mem_cons_self _ _
    | some m' =>
      rw [h2] at h
      by_cases hk : k x ≤ k m'
      · simp [hk] at h
        subst h
        exact List.mem_cons_self _ _
      · simp [hk] at h
        subst h
        exact List.mem_cons_of_mem _ (ih h2)

theorem minHead_le {k : Node → Int} {l : List Node} :
    ∀ {m : Node}, minHead k l = some m → ∀ y ∈ l, k m ≤ k y := by
  induction l with
  | nil => intro m h; cases h
  | cons x xs ih =>
    intro m h
    simp only [minHead] at h
    cases h2 : minHead k xs with
    | none =>
      rw [h2] at h
      simp at h
      subst h
      intro y hy
      rcases List.mem_cons.mp hy with rfl | hy'
      · exact le_refl _
      · exact absurd (minHead_eq_none.mp h2 ▸ hy') (List.not_mem_nil y)
    | some m' =>
      rw [h2] at h
      by_cases hk : k x ≤ k m'
      · simp [hk] at h
        subst h
        intro y hy
        rcases List.mem_cons.mp hy with rfl | hy'
        · exact le_refl _
        · exact le_trans hk (ih h2 y hy')
      · simp [hk] at h
        subst h
        intro y hy
        rcases List.mem_cons.mp hy with rfl | hy'
        · exact le_of_lt (lt_of_not_le hk)
        · exact ih h2 y hy'

theorem head_insertSorted {k : Node → Int} {x : Node} {l : List Node} :
    (insertSorted k x l).head? =
      some (match l.head? with
            | none => x
            | some y => if k x ≤ k y then x else y) := by
  cases l with
  | nil => rfl
  | cons y ys =>
    by_cases h : k x ≤ k y <;> simp [insertSorted, h]

theorem head_sortByKey {k : Node → Int} {l : List Node} :
    (sortByKey k l).head? = minHead k l := by
  induction l with
  | nil => rfl
  | cons x xs ih =>
    simp only [sortByKey, minHead, head_insertSorted, ← ih]
    cases h : (sortByKey k xs).head? with
    | none => simp
    | some m => by_cases hk : k x ≤ k m <;> simp [hk]

theorem find?_congr_mem {p q : α → Bool} {l : List α}
    (h : ∀ a ∈ l, p a = q a) : l.find? p = l.find? q := by
  induction l with
  | nil => rfl
  | cons a l ih =>
    have ha := h a (List.mem_cons_self _ _)
    cases hp : p a with
    | true =>
      rw [List.find?_cons_of_pos _ hp, List.find?_cons_of_pos _ (ha ▸ hp)]
    | false =>
      rw [List.find?_cons_of_neg _ (by simp [hp]), List.find?_cons_of_neg _ (by simp [← ha, hp])]
      exact ih fun b hb => h b (List.mem_cons_of_mem _ hb)

theorem all_congr_mem {p q : α → Bool} {l : List α}
    (h : ∀ a ∈ l, p a = q a) : l.all p = l.all q := by
  induction l with
  | nil => rfl
  | cons a l ih =>
    simp only [List.all_cons, h a (List.mem_cons_self _ _),
      ih fun b hb => h b (List.mem_cons_of_mem _ hb)]

/-- The head of the stable ascending sort is the first element (in original
order) whose key is minimal. -/
theorem minHead_eq_find? {k : Node → Int} {l : List Node} :
    minHead k l = l.find? fun x => l.all fun y => decide (k x ≤ k y) := by
  induction l with
  | nil => rfl
  | cons a l ih =>
    simp only [minHead]
    cases h2 : minHead k l with
    | none =>
      have : l = [] := minHead_eq_none.mp h2
      subst this
      simp
    | some m =>
      have hm := minHead_mem h2
      have hle := minHead_le h2
      by_cases hk : k a ≤ k m
      · have hall : ∀ y ∈ a :: l, k a ≤ k y := by
          intro y hy
          rcases List.mem_cons.mp hy with rfl | hy'
          · exact le_refl _
          · exact le_trans hk (hle y hy')
        rw [List.find?_cons_of_pos _ (by simpa using hall)]
        simp [hk]
      · have hnotall : ¬ ∀ y ∈ a :: l, k a ≤ k y := by
          intro hc
          exact hk (hc m (List.mem_cons_of_mem _ hm))
        rw [List.find?_cons_of_neg _ (by simpa using hnotall)]
        have e2 : (List.find? (fun x => (a :: l).all fun y => decide (k x ≤ k y)) l)
            = List.find? (fun x => l.all fun y => decide (k x ≤ k y)) l := by
          apply find?_congr_mem
          intro b hb
          by_cases hball : (l.all fun y => decide (k b ≤ k y)) = true
          · have hbm : k b ≤ k m := by
              simpa using List.all_eq_true.mp hball m hm
            have hba : k b ≤ k a := le_trans hbm (le_of_lt (lt_of_not_le hk))
            simp [List.all_cons, hball, hba]
          · have hf : (l.all fun y => decide (k b ≤ k y)) = false := by
              simpa using hball
            simp [List.all_cons, hf]
        rw [e2, ← ih, h2]
        simp [hk]

theorem headOptMem {l : List α} {a : α} (h : l.head? = some a) : a ∈ l := by
  cases l with
  | nil => cases h
  | cons b l =>
    simp at h
    subst h
    exact List.mem_cons_self _ _

theorem headOptNone {l : List α} : l.head? = none ↔ l = [] := by
  cases l <;> simp

theorem bestFitChoice_eq_minHead {cands : List Node} :
    bestFitChoice cands = minHead (fun n => n.availableCpuCores) cands :=
  minHead_eq_find?.symm

theorem worstFitChoice_eq_minHead {cands : List Node} :
    worstFitChoice cands = minHead (fun n => -n.availableCpuCores) cands := by
  rw [minHead_eq_find?]
  apply find?_congr_mem
  intro a _
  apply all_congr_mem
  intro b _
  simp only [neg_le_neg_iff]

/-- Unpacking the filter predicate of `_findSuitableNode`. -/
theorem nodeIsCandidate_iff {d : Int} {n : Node} :
    nodeIsCandidate d n = true ↔ n.status = "healthy" ∧ d ≤ n.availableCpuCores := by
  simp [nodeIsCandidate]

/-- Any id returned by `_findSuitableNode` names an existing healthy node
with enough available capacity. -/
theorem findSuitableNode_some {s : ClusterState} {d : Int} {nid : String}
    (h : findSuitableNode s d = some nid) :
    ∃ n ∈ s.nodes, n.id = nid ∧ n.status = "healthy" ∧ d ≤ n.availableCpuCores := by
  unfold findSuitableNode at h
  by_cases he : (s.nodes.filter (nodeIsCandidate d)).isEmpty = true
  · simp [he] at h
  · simp only [he, Bool.false_eq_true, if_false] at h
    have main : ∃ n ∈ s.nodes.filter (nodeIsCandidate d), n.id = nid := by
      by_cases hb : s.algo = "best-fit"
      · simp only [hb, if_pos] at h
        rcases Option.map_eq_some'.mp h with ⟨n, hn, rfl⟩
        rw [head_sortByKey] at hn
        exact ⟨n, minHead_mem hn, rfl⟩
      · simp only [hb, if_false] at h
        by_cases hw : s.algo = "worst-fit"
        · simp only [hw, if_pos] at h
          rcases Option.map_eq_some'.mp h with ⟨n, hn, rfl⟩
          rw [head_sortByKey] at hn
          exact ⟨n, minHead_mem hn, rfl⟩
        · simp only [hw, if_false] at h
          rcases Option.map_eq_some'.mp h with ⟨n, hn, rfl⟩
          exact ⟨n, headOptMem hn, rfl⟩
    rcases main with ⟨n, hn, rfl⟩
    rcases List.mem_filter.mp hn with ⟨hmem, hcand⟩
    rcases nodeIsCandidate_iff.mp hcand with ⟨h1, h2⟩
    exact ⟨n, hmem, rfl, h1, h2⟩

/-- **C6** (placement selection): the placement policy considers exactly the
nodes that are `healthy` and have `availableCpuCores ≥ d` (the filter
`nodeIsCandidate d`, taken in node-insertion order) and returns `none` iff
that candidate list is empty; `first-fit` returns the first candidate,
`best-fit` the first candidate of minimal available capacity, and
`worst-fit` the first candidate of maximal available capacity — ties broken
by insertion order, so the choice is a deterministic function of the node
list, the demand and the active algorithm. -/
theorem C6_placement_selection (s : ClusterState) (d : Int) :
    (findSuitableNode { s with algo := "first-fit" } d
        = (s.nodes.filter (nodeIsCandidate d)).head?.map Node.id) ∧
    (findSuitableNode { s with algo := "best-fit" } d
        = (bestFitChoice (s.nodes.filter (nodeIsCandidate d))).map Node.id) ∧
    (findSuitableNode { s with algo := "worst-fit" } d
        = (worstFitChoice (s.nodes.filter (nodeIsCandidate d))).map Node.id) ∧
    (findSuitableNode { s with algo := "first-fit" } d = none
        ↔ s.nodes.filter (nodeIsCandidate d) = []) ∧
    (findSuitableNode { s with algo := "best-fit" } d = none
        ↔ s.nodes.filter (nodeIsCandidate d) = []) ∧
    (findSuitableNode { s with algo := "worst-fit" } d = none
        ↔ s.nodes.filter (nodeIsCandidate d) = []) := by
  have hff : findSuitableNode { s with algo := "first-fit" } d
      = (s.nodes.filter (nodeIsCandidate d)).head?.map Node.id := by
    unfold findSuitableNode
    by_cases he : (s.nodes.filter (nodeIsCandidate d)).isEmpty = true
    · have : s.nodes.filter (nodeIsCandidate d) = [] := by
        simpa [List.isEmpty_iff] using he
      simp [he, this]
    · simp only [he, Bool.false_eq_true, if_false]
      have h1 : ¬ ("first-fit" : String) = "best-fit" := by decide
      have h2 : ¬ ("first-fit" : String) = "worst-fit" := by decide
      simp [h1, h2]
  have hbf : findSuitableNode { s with algo := "best-fit" } d
      = (bestFitChoice (s.nodes.filter (nodeIsCandidate d))).map Node.id := by
    unfold findSuitableNode
    by_cases he : (s.nodes.filter (nodeIsCandidate d)).isEmpty = true
    · have hnil : s.nodes.filter (nodeIsCandidate d) = [] := by
        simpa [List.isEmpty_iff] using he
      simp [he, hnil, bestFitChoice]
    · simp only [he, Bool.false_eq_true, if_false]
      simp [head_sortByKey, bestFitChoice_eq_minHead]
  have hwf : findSuitableNode { s with algo := "worst-fit" } d
      = (worstFitChoice (s.nodes.filter (nodeIsCandidate d))).map Node.id := by
    unfold findSuitableNode
    by_cases he : (s.nodes.filter (nodeIsCandidate d)).isEmpty = true
    · have hnil : s.nodes.filter (nodeIsCandidate d) = [] := by
        simpa [List.isEmpty_iff] using he
      simp [he, hnil, worstFitChoice]
    · simp only [he, Bool.false_eq_true, if_false]
      have h1 : ¬ ("worst-fit" : String) = "best-fit" := by decide
      simp [h1, head_sortByKey, worstFitChoice_eq_minHead]
  refine ⟨hff, hbf, hwf, ?_, ?_, ?_⟩
  · rw [hff]
    simp [Option.map_eq_none', headOptNone]
  · rw [hbf]
    simp [Option.map_eq_none', bestFitChoice_eq_minHead, minHead_eq_none]
  · rw [hwf]
    simp [Option.map_eq_none', worstFitChoice_eq_minHead, minHead_eq_none]

/-- **C7** (workload update semantics, Scenario E): for `updatePod(id,
{cpuRequirement: r})` on an existing pod hosted on an existing node, with
`delta = r - cpuRequirement`: if the node's `availableCpuCores < delta` the
call fails with the insufficient-resources message and the state — in
particular the pod's demand and the node's capacities — is unchanged;
otherwise it decreases `availableCpuCores` by `delta` and sets the new
demand.  The embedded operation takes no Runtime-Driver outcome because
`PodScheduler.updatePod` performs no driver call. -/
theorem C7_updatePod_semantics (s : ClusterState) (podId : String) (r : Int)
    (p : Pod) (node : Node)
    (hp : getBy Pod.id podId s.pods = some p)
    (hn : getBy Node.id p.nodeId s.nodes = some node) :
    (node.availableCpuCores < r - p.cpuRequirement →
      updatePod s podId (some r) =
        ⟨s, false,
         "Node " ++ p.nodeId ++
           " does not have enough resources for the updated CPU requirement"⟩) ∧
    (r - p.cpuRequirement ≤ node.availableCpuCores →
      updatePod s podId (some r) =
        ⟨{ s with
            nodes := updBy Node.id p.nodeId
                (fun n => { n with availableCpuCores :=
                    n.availableCpuCores - (r - p.cpuRequirement) })
                s.nodes,
            pods := updBy Pod.id podId
                (fun q => { q with cpuRequirement := r }) s.pods },
         true, ""⟩) := by
  unfold updatePod
  simp only [hp, hn]
  constructor
  · intro h
    rw [if_pos h]
  · intro h
    rw [if_neg (not_lt.mpr h)]

/-- **C8** (busy-node removal refusal, Scenario D): `removeNode` on an
existing node with a non-empty `pods` list fails and leaves the entire state
unchanged; on a node with an empty `pods` list it succeeds and deletes
exactly that node, leaving the pod store untouched. -/
theorem C8_removeNode_busy (s : ClusterState) (nodeId : String) (n : Node)
    (h : getBy Node.id nodeId s.nodes = some n) :
    (n.pods ≠ [] →
      removeNode s nodeId =
        ⟨s, false,
         "Cannot remove node " ++ nodeId ++ ". It still has " ++
           toString n.pods.length ++ " pods. Reschedule or delete pods first."⟩) ∧
    (n.pods = [] →
      removeNode s nodeId =
        ⟨{ s with nodes := delBy Node.id nodeId s.nodes }, true,
         "Node " ++ nodeId ++ " removed successfully"⟩) := by
  unfold removeNode
  simp only [h]
  constructor
  · intro hne
    rw [if_pos (by simpa using List.length_pos.mpr hne)]
  · intro hnil
    rw [if_neg (by simp [hnil])]

/-- **C9** (removal tolerates driver failure): `removePod` on an existing pod
whose host node exists releases the pod's capacity on that node, drops the
pod id from the node's `pods` list and deletes the pod record, and returns
success — with the same resulting state and result for a successful and for
a failed Runtime-Driver destroy call (`destroyOk` is universally
quantified). -/
theorem C9_removePod_tolerates_driver_failure (s : ClusterState) (podId : String)
    (destroyOk : Bool) (p : Pod) (node : Node)
    (hp : getBy Pod.id podId s.pods = some p)
    (hn : getBy Node.id p.nodeId s.nodes = some node) :
    removePod s podId destroyOk =
      ⟨{ s with
          nodes := updBy Node.id p.nodeId
              (fun n => { n with
                availableCpuCores := n.availableCpuCores + p.cpuRequirement,
                pods := n.pods.filter (fun i => i != podId) })
              s.nodes,
          pods := delBy Pod.id podId s.pods },
       true, "Pod " ++ podId ++ " removed successfully"⟩ := by
  unfold removePod
  simp only [hp, hn]

/-- **C10** (node capacity update guard): `updateNode(id, {cpuCores: c})` on
an existing node fails and leaves the state unchanged when `c` is below the
total CPU requirement of the pods listed on the node; otherwise it sets
`cpuCores := c` and `availableCpuCores := c - (cpuCores -
availableCpuCores)`, which preserves the capacity-accounting equation (and
keeps the new available capacity non-negative) whenever the node satisfied
it before the call. -/
theorem C10_updateNode_guard (s : ClusterState) (nodeId : String) (c : Int)
    (n : Node) (h : getBy Node.id nodeId s.nodes = some n) :
    (c < totalPodCpu s n.pods →
      updateNode s nodeId (some c) =
        ⟨s, false,
         "Cannot reduce CPU cores to " ++ toString c ++ ". Current pods require " ++
           toString (totalPodCpu s n.pods) ++ " cores."⟩) ∧
    (totalPodCpu s n.pods ≤ c →
      updateNode s nodeId (some c) =
        ⟨{ s with
            nodes := updBy Node.id nodeId
                (fun m => { m with
                    availableCpuCores := c - (m.cpuCores - m.availableCpuCores),
                    cpuCores := c })
                s.nodes },
         true, ""⟩ ∧
      (n.availableCpuCores + totalPodCpu s n.pods = n.cpuCores →
        c - (n.cpuCores - n.availableCpuCores) + totalPodCpu s n.pods = c ∧
        0 ≤ c - (n.cpuCores - n.availableCpuCores))) := by
  unfold updateNode
  simp only [h]
  constructor
  · intro hlt
    rw [if_pos hlt]
  · intro hge
    refine ⟨by rw [if_neg (not_lt.mpr hge)], fun hinv => ⟨by omega, by omega⟩⟩

/-- Shared helper: the failed-launch branch of `schedulePod` restores the
pre-call state exactly (the reservation is reversed and no pod record is
inserted). -/
theorem schedulePod_rollback {s : ClusterState} {podId : String} {d : Int}
    {now : Int} {nid : String}
    (hfind : findSuitableNode s d = some nid)
    (hfresh : ∀ m ∈ s.nodes, podId ∉ m.pods) :
    schedulePod s podId d none now = ⟨s, false, "Failed to create pod container"⟩ := by
  unfold schedulePod
  simp only [hfind]
  rw [updBy_updBy ?hid]
  case hid => intro a; rfl
  rw [updBy_eq_self ?h]
  case h =>
    intro a ha _
    have hnot := hfresh a ha
    simp [filter_bne_append, filter_bne_of_not_mem hnot, sub_add_cancel]

/-- **C3** (creation rollback): when `schedulePod` finds a placement
candidate but the Runtime-Driver launch fails, the reservation is reversed
(the chosen node's `availableCpuCores` is restored and the new pod id is
removed from its `pods` list), no pod record is inserted, and the call fails
— the resulting state equals the pre-call state.  `hfresh` records that the
generated pod id is fresh (the source generates it from `Date.now()` plus a
random suffix; under the reachable-state invariant proved below it follows
from the id being absent from the pod store). -/
theorem C3_creation_rollback (s : ClusterState) (podId : String) (d : Int)
    (now : Int) (nid : String)
    (hfind : findSuitableNode s d = some nid)
    (hfresh : ∀ m ∈ s.nodes, podId ∉ m.pods) :
    schedulePod s podId d none now = ⟨s, false, "Failed to create pod container"⟩ :=
  schedulePod_rollback hfind hfresh

/-- Shared helper: the exact result of `reschedulePod` when the placement
policy finds no candidate for the detached pod. -/
theorem reschedulePod_noCandidate_eq {s : ClusterState} {podId : String}
    {destroyOk : Bool} {launch : Option String} {p : Pod} {n0 : Node}
    (hp : getBy Pod.id podId s.pods = some p)
    (hn : getBy Node.id p.nodeId s.nodes = some n0)
    (hno : findSuitableNode
        { s with
            nodes := updBy Node.id p.nodeId
                (fun n => { n with
                    pods := n.pods.filter (fun i => i != podId),
                    availableCpuCores := n.availableCpuCores + p.cpuRequirement })
                s.nodes }
        p.cpuRequirement = none) :
    reschedulePod s podId destroyOk launch =
      ⟨{ s with
          nodes := updBy Node.id p.nodeId
              (fun n => { n with
                  pods := n.pods.filter (fun i => i != podId),
                  availableCpuCores := n.availableCpuCores + p.cpuRequirement })
              s.nodes,
          pods := updBy Pod.id podId (fun q => { q with status := "pending" }) s.pods },
       false, "No suitable node found for pod rescheduling"⟩ := by
  have hcid : n0.id = p.nodeId := (getBy_mem hn).2
  unfold reschedulePod
  simp only [hp, hn, Option.map_some']
  rw [hcid]
  simp only [hno]

/-- **C4** (reschedule with no candidate, Scenario C): `reschedulePod` on an
existing pod whose host node exists, when the placement policy (run on the
detached state, as the source does) finds no candidate, removes the pod id
from the host node's `pods` list, restores that node's `availableCpuCores`
by the pod's requirement, sets the pod's status to `"pending"` and fails
with the no-suitable-node message; nothing else changes. -/
theorem C4_reschedule_no_candidate (s : ClusterState) (podId : String)
    (destroyOk : Bool) (launch : Option String) (p : Pod) (n0 : Node)
    (hp : getBy Pod.id podId s.pods = some p)
    (hn : getBy Node.id p.nodeId s.nodes = some n0)
    (hno : findSuitableNode
        { s with
            nodes := updBy Node.id p.nodeId
                (fun n => { n with
                    pods := n.pods.filter (fun i => i != podId),
                    availableCpuCores := n.availableCpuCores + p.cpuRequirement })
                s.nodes }
        p.cpuRequirement = none) :
    reschedulePod s podId destroyOk launch =
      ⟨{ s with
          nodes := updBy Node.id p.nodeId
              (fun n => { n with
                  pods := n.pods.filter (fun i => i != podId),
                  availableCpuCores := n.availableCpuCores + p.cpuRequirement })
              s.nodes,
          pods := updBy Pod.id podId (fun q => { q with status := "pending" }) s.pods },
       false, "No suitable node found for pod rescheduling"⟩ :=
  reschedulePod_noCandidate_eq hp hn hno

/-- Shared helper: the exact result of `reschedulePod` when a candidate is
found, the launch fails and the original node still exists — the relocation
is fully reverted, with the pod id re-appended at the end of the original
node's list. -/
theorem reschedulePod_launchFail_restore {s : ClusterState} {podId : String}
    {destroyOk : Bool} {newNid : String} {p : Pod} {n0 : Node}
    (hp : getBy Pod.id podId s.pods = some p)
    (hndp : (s.pods.map Pod.id).Nodup)
    (hnotin : ∀ m ∈ s.nodes, m.id ≠ p.nodeId → podId ∉ m.pods)
    (hn : getBy Node.id p.nodeId s.nodes = some n0)
    (hfind : findSuitableNode
        { s with
            nodes := updBy Node.id p.nodeId
                (fun n => { n with
                    pods := n.pods.filter (fun i => i != podId),
                    availableCpuCores := n.availableCpuCores + p.cpuRequirement })
                s.nodes }
        p.cpuRequirement = some newNid) :
    reschedulePod s podId destroyOk none =
      ⟨{ s with
          nodes := updBy Node.id p.nodeId
              (fun n => { n with
                  pods := n.pods.filter (fun i => i != podId) ++ [podId] })
              s.nodes },
       false, "Failed to reschedule pod"⟩ := by
  have hcid : n0.id = p.nodeId := (getBy_mem hn).2
  unfold reschedulePod
  simp only [hp, hn, Option.map_some']
  rw [hcid]
  simp only [hfind]
  simp only [OpOut.mk.injEq, ClusterState.mk.injEq]
  refine ⟨⟨?_, ?_, trivial⟩, trivial, trivial⟩
  · -- node lists: revert and re-attach undo the detach/attach pointwise
    simp only [updBy_eq_map, List.map_map]
    apply List.map_congr_left
    intro a ha
    simp only [Function.comp]
    by_cases h1 : a.id = p.nodeId
    · by_cases h2 : a.id = newNid
      · have h4 : p.nodeId = newNid := h1.symm.trans h2
        have hnm : podId ∉ a.pods.filter (fun i => i != podId) := not_mem_filter_bne
        obtain ⟨aid, aco, acp, aav, apo, alh, ast⟩ := a
        simp only at h1 h2 hnm
        simp [h1, h4, filter_bne_append, filter_bne_of_not_mem hnm]
      · have h5 : ¬ p.nodeId = newNid := fun hc => h2 (h1.trans hc)
        obtain ⟨aid, aco, acp, aav, apo, alh, ast⟩ := a
        simp only at h1 h2
        simp [h1, h5]
    · by_cases h2 : a.id = newNid
      · have h3 : ¬ newNid = p.nodeId := fun hc => h1 (h2.trans hc)
        have hni := hnotin a ha h1
        obtain ⟨aid, aco, acp, aav, apo, alh, ast⟩ := a
        simp only at h1 h2 hni
        simp [h2, h3, filter_bne_append, filter_bne_of_not_mem hni]
      · simp [h1, h2]
  · -- pod store: the nodeId round-trip restores every record
    simp only [updBy_eq_map, List.map_map]
    have hpt : ∀ q ∈ s.pods,
        ((fun x => if Pod.id x = podId then { x with nodeId := p.nodeId } else x) ∘
          fun x => if Pod.id x = podId then { x with nodeId := newNid } else x) q = q := by
      intro q hq
      simp only [Function.comp]
      by_cases hid : q.id = podId
      · have hqp : q = p := by
          have h1 := getBy_unique hndp hq hid
          rw [hp] at h1
          exact (Option.some_inj.mp h1).symm
        subst hqp
        obtain ⟨qid, qr, qn, qc, qs, qca⟩ := q
        simp only at hid
        simp [hid]
      · simp [hid]
    rw [List.map_congr_left hpt]
    simp

/-- Shared helper: the exact result of `reschedulePod` when a candidate is
found, the launch fails and the original node no longer exists — the node
list is unchanged and the pod is marked `"error"`. -/
theorem reschedulePod_launchFail_error {s : ClusterState} {podId : String}
    {destroyOk : Bool} {newNid : String} {p : Pod}
    (hp : getBy Pod.id podId s.pods = some p)
    (hnotin : ∀ m ∈ s.nodes, m.id ≠ p.nodeId → podId ∉ m.pods)
    (hn : getBy Node.id p.nodeId s.nodes = none)
    (hfind : findSuitableNode s p.cpuRequirement = some newNid) :
    reschedulePod s podId destroyOk none =
      ⟨{ s with
          pods := updBy Pod.id podId
              (fun q => { q with nodeId := newNid, status := "error" }) s.pods },
       false, "Failed to reschedule pod"⟩ := by
  unfold reschedulePod
  simp only [hp, hn, Option.map_none']
  simp only [hfind]
  simp only [OpOut.mk.injEq, ClusterState.mk.injEq]
  refine ⟨⟨?_, ?_, trivial⟩, trivial, trivial⟩
  · -- node lists: detaching the candidate undoes its attach pointwise
    simp only [updBy_eq_map, List.map_map]
    have hpt : ∀ a ∈ s.nodes,
        ((fun x => if Node.id x = newNid then { x with
            pods := x.pods.filter (fun i => i != podId),
            availableCpuCores := x.availableCpuCores + p.cpuRequirement } else x) ∘
          fun x => if Node.id x = newNid then { x with
            pods := x.pods ++ [podId],
            availableCpuCores := x.availableCpuCores - p.cpuRequirement } else x) a = a := by
      intro a ha
      have hne : a.id ≠ p.nodeId := getBy_eq_none.mp hn a ha
      have hni := hnotin a ha hne
      simp only [Function.comp]
      by_cases h2 : a.id = newNid
      · obtain ⟨aid, aco, acp, aav, apo, alh, ast⟩ := a
        simp only at h2 hni
        simp [h2, filter_bne_append, filter_bne_of_not_mem hni]
      · simp [h2]
    rw [List.map_congr_left hpt]
    simp
  · -- pod store: the nodeId update and the error marking compose
    simp only [updBy_eq_map, List.map_map]
    apply List.map_congr_left
    intro q hq
    simp only [Function.comp]
    by_cases hid : q.id = podId
    · simp [hid]
    · simp [hid]

/-- **C5** (reschedule revert on provisioning failure): when `reschedulePod`
finds a candidate node but the new launch fails, the relocation is reverted
regardless of the outcome of destroying the old container.  If the original
node still exists, the new node's capacity and `pods` list are restored, the
pod record is fully restored (same `nodeId`, demand, status and container),
and the pod id is a member of the original node's `pods` list again (it is
re-appended at the end) with that node's `availableCpuCores` back at its
pre-call value — the only difference to the pre-call state is the position
of the pod id inside the original node's list.  If the original node no
longer exists, the node list is unchanged and the pod's status is set to
`"error"` (its `nodeId` field is left pointing at the candidate node). -/
theorem C5_reschedule_revert (s : ClusterState) (podId : String)
    (destroyOk : Bool) (newNid : String) (p : Pod)
    (hp : getBy Pod.id podId s.pods = some p)
    (hndp : (s.pods.map Pod.id).Nodup)
    (hnotin : ∀ m ∈ s.nodes, m.id ≠ p.nodeId → podId ∉ m.pods) :
    (∀ n0, getBy Node.id p.nodeId s.nodes = some n0 →
      findSuitableNode
          { s with
              nodes := updBy Node.id p.nodeId
                  (fun n => { n with
                      pods := n.pods.filter (fun i => i != podId),
                      availableCpuCores := n.availableCpuCores + p.cpuRequirement })
                  s.nodes }
          p.cpuRequirement = some newNid →
      reschedulePod s podId destroyOk none =
        ⟨{ s with
            nodes := updBy Node.id p.nodeId
                (fun n => { n with
                    pods := n.pods.filter (fun i => i != podId) ++ [podId] })
                s.nodes },
         false, "Failed to reschedule pod"⟩) ∧
    (getBy Node.id p.nodeId s.nodes = none →
      findSuitableNode s p.cpuRequirement = some newNid →
      reschedulePod s podId destroyOk none =
        ⟨{ s with
            pods := updBy Pod.id podId
                (fun q => { q with nodeId := newNid, status := "error" }) s.pods },
         false, "Failed to reschedule pod"⟩) := by
  constructor
  · intro n0 hn hfind
    exact reschedulePod_launchFail_restore hp hndp hnotin hn hfind
  · intro hn hfind
    exact reschedulePod_launchFail_error hp hnotin hn hfind

theorem C7_witness :
    getBy Pod.id "p1" wsA.pods = some ⟨"p1", 2, "n1", "cp1", "running", 0⟩ ∧
    (⟨"n1", "c1", 4, 2, ["p1"], 0, "healthy"⟩ : Node).availableCpuCores < 5 - 2 ∧
    updatePod wsA "p1" (some 5) =
      ⟨wsA, false,
       "Node " ++ "n1" ++
         " does not have enough resources for the updated CPU requirement"⟩ := by
  refine ⟨by decide, by decide, ?_⟩
  exact (C7_updatePod_semantics wsA "p1" 5 ⟨"p1", 2, "n1", "cp1", "running", 0⟩
    ⟨"n1", "c1", 4, 2, ["p1"], 0, "healthy"⟩ (by decide) (by decide)).1 (by decide)

theorem C8_witness :
    getBy Node.id "n1" wsA.nodes = some ⟨"n1", "c1", 4, 2, ["p1"], 0, "healthy"⟩ ∧
    (removeNode wsA "n1").ok = false ∧ (removeNode wsA "n1").state = wsA := by
  refine ⟨by decide, ?_⟩
  have h := (C8_removeNode_busy wsA "n1" ⟨"n1", "c1", 4, 2, ["p1"], 0, "healthy"⟩
    (by decide)).1 (by decide)
  rw [h]
  exact ⟨rfl, rfl⟩

theorem C9_witness :
    getBy Pod.id "p1" wsA.pods = some ⟨"p1", 2, "n1", "cp1", "running", 0⟩ ∧
    removePod wsA "p1" false = removePod wsA "p1" true ∧
    (removePod wsA "p1" false).ok = true ∧
    (removePod wsA "p1" false).state =
      ⟨[⟨"n1", "c1", 4, 4, [], 0, "healthy"⟩], [], "first-fit"⟩ := by
  have h := C9_removePod_tolerates_driver_failure wsA "p1" false
    ⟨"p1", 2, "n1", "cp1", "running", 0⟩ ⟨"n1", "c1", 4, 2, ["p1"], 0, "healthy"⟩
    (by decide) (by decide)
  have h2 := C9_removePod_tolerates_driver_failure wsA "p1" true
    ⟨"p1", 2, "n1", "cp1", "running", 0⟩ ⟨"n1", "c1", 4, 2, ["p1"], 0, "healthy"⟩
    (by decide) (by decide)
  refine ⟨by decide, ?_, ?_, ?_⟩
  · rw [h, h2]
  · rw [h]
  · rw [h]
    decide

theorem C10_witness :
    getBy Node.id "n1" wsA.nodes = some ⟨"n1", "c1", 4, 2, ["p1"], 0, "healthy"⟩ ∧
    (1 : Int) < totalPodCpu wsA ["p1"] ∧
    (updateNode wsA "n1" (some 1)).ok = false ∧
    (updateNode wsA "n1" (some 1)).state = wsA ∧
    (updateNode wsA "n1" (some 8)).state =
      ⟨[⟨"n1", "c1", 8, 6, ["p1"], 0, "healthy"⟩],
       [⟨"p1", 2, "n1", "cp1", "running", 0⟩], "first-fit"⟩ := by
  have h1 := (C10_updateNode_guard wsA "n1" 1 ⟨"n1", "c1", 4, 2, ["p1"], 0, "healthy"⟩
    (by decide)).1 (by decide)
  have hle : totalPodCpu wsA (⟨"n1", "c1", 4, 2, ["p1"], 0, "healthy"⟩ : Node).pods ≤ 8 := by
    decide
  have h2 := ((C10_updateNode_guard wsA "n1" 8 ⟨"n1", "c1", 4, 2, ["p1"], 0, "healthy"⟩
    (by decide)).2 hle).1
  refine ⟨by decide, by decide, ?_, ?_, ?_⟩
  · rw [h1]
  · rw [h1]
  · rw [h2]
    decide

theorem C3_witness :
    findSuitableNode wsB 2 = some "n2" ∧
    schedulePod wsB "px" 2 none 0 = ⟨wsB, false, "Failed to create pod container"⟩ :=
  ⟨by decide, C3_creation_rollback wsB "px" 2 0 "n2" (by decide) (by decide)⟩

theorem C4_witness :
    (reschedulePod wsC "p" true none).ok = false ∧
    (reschedulePod wsC "p" true none).state =
      ⟨[⟨"A", "cA", 4, 4, [], 0, "unhealthy"⟩],
       [⟨"p", 4, "A", "cp", "pending", 0⟩], "first-fit"⟩ := by
  have h := C4_reschedule_no_candidate wsC "p" true none ⟨"p", 4, "A", "cp", "running", 0⟩
    ⟨"A", "cA", 4, 0, ["p"], 0, "unhealthy"⟩ (by decide) (by decide) (by decide)
  rw [h]
  exact ⟨rfl, by decide⟩

theorem C5_witness :
    (reschedulePod wsD "p" true none).ok = false ∧
    (reschedulePod wsD "p" true none).state = wsD := by
  have h := (C5_reschedule_revert wsD "p" true "B" ⟨"p", 4, "A", "cp", "running", 0⟩
    (by decide) (by decide) (by decide)).1 ⟨"A", "cA", 4, 0, ["p"], 0, "unhealthy"⟩
    (by decide) (by decide)
  rw [h]
  exact ⟨rfl, by decide⟩

theorem WF_updBy_node_inert {s : ClusterState} {i : String} {f : Node → Node}
    (hWF : WF s) (hid : ∀ n, (f n).id = n.id) (hpods : ∀ n, (f n).pods = n.pods) :
    WF { s with nodes := updBy Node.id i f s.nodes } := by
  obtain ⟨h1, h2, h3, h4, h5⟩ := hWF
  refine ⟨?_, h2, ?_, ?_, ?_⟩
  · rw [map_key_updBy hid]
    exact h1
  · intro n hn
    rcases mem_updBy.mp hn with ⟨a, ha, rfl⟩
    by_cases hk : a.id = i
    · rw [if_pos hk, hpods]
      exact h3 a ha
    · rw [if_neg hk]
      exact h3 a ha
  · intro n hn pid hpid
    rcases mem_updBy.mp hn with ⟨a, ha, rfl⟩
    by_cases hk : a.id = i
    · rw [if_pos hk] at hpid ⊢
      rw [hpods] at hpid
      rcases h4 a ha pid hpid with ⟨p, hp, e1, e2, e3⟩
      exact ⟨p, hp, e1, by rw [hid]; exact e2, e3⟩
    · rw [if_neg hk] at hpid ⊢
      exact h4 a ha pid hpid
  · intro p hp hrun
    rcases h5 p hp hrun with ⟨n, hn, e1, e2⟩
    refine ⟨if n.id = i then f n else n, updBy_mem_of_mem hn, ?_, ?_⟩
    · by_cases hk : n.id = i
      · rw [if_pos hk, hid]
        exact e1
      · rw [if_neg hk]
        exact e1
    · by_cases hk : n.id = i
      · rw [if_pos hk, hpods]
        exact e2
      · rw [if_neg hk]
        exact e2

theorem WF_updBy_pod_inert {s : ClusterState} {i : String} {g : Pod → Pod}
    (hWF : WF s) (hid : ∀ p, (g p).id = p.id) (hnode : ∀ p, (g p).nodeId = p.nodeId)
    (hst : ∀ p, (g p).status = p.status) :
    WF { s with pods := updBy Pod.id i g s.pods } := by
  obtain ⟨h1, h2, h3, h4, h5⟩ := hWF
  refine ⟨h1, ?_, h3, ?_, ?_⟩
  · rw [map_key_updBy hid]
    exact h2
  · intro n hn pid hpid
    rcases h4 n hn pid hpid with ⟨p, hp, e1, e2, e3⟩
    refine ⟨if p.id = i then g p else p, updBy_mem_of_mem hp, ?_, ?_, ?_⟩
    · by_cases hk : p.id = i
      · rw [if_pos hk, hid]
        exact e1
      · rw [if_neg hk]
        exact e1
    · by_cases hk : p.id = i
      · rw [if_pos hk, hnode]
        exact e2
      · rw [if_neg hk]
        exact e2
    · by_cases hk : p.id = i
      · rw [if_pos hk, hst]
        exact e3
      · rw [if_neg hk]
        exact e3
  · intro p hp hrun
    rcases mem_updBy.mp hp with ⟨q, hq, rfl⟩
    by_cases hk : q.id = i
    · rw [if_pos hk] at hrun ⊢
      rw [hst] at hrun
      rcases h5 q hq hrun with ⟨n, hn, e1, e2⟩
      exact ⟨n, hn, by rw [hnode]; exact e1, by rw [hid]; exact e2⟩
    · rw [if_neg hk] at hrun ⊢
      exact h5 q hq hrun

theorem WF_addNode {s : ClusterState} {i : String} {c : Int} {cid : String}
    {now : Int} (hWF : WF s) : WF (addNode s i c cid now).state := by
  unfold addNode
  by_cases he : (getBy Node.id i s.nodes).isSome
  · simp only [he, if_true]
    exact hWF
  · simp only [he, Bool.false_eq_true, if_false]
    obtain ⟨h1, h2, h3, h4, h5⟩ := hWF
    have hni : ∀ a ∈ s.nodes, a.id ≠ i :=
      getBy_eq_none.mp (Option.not_isSome_iff_eq_none.mp he)
    refine ⟨?_, h2, ?_, ?_, ?_⟩
    · rw [List.map_append]
      refine List.Nodup.append h1 (List.nodup_singleton i) ?_
      intro x hx hx2
      simp only [List.map_cons, List.map_nil, List.mem_singleton] at hx2
      subst hx2
      rcases List.mem_map.mp hx with ⟨a, ha, hai⟩
      exact hni a ha hai
    · intro n hn
      rcases List.mem_append.mp hn with hn' | hn'
      · exact h3 n hn'
      · simp only [List.mem_singleton] at hn'
        subst hn'
        exact List.nodup_nil
    · intro n hn pid hpid
      rcases List.mem_append.mp hn with hn' | hn'
      · exact h4 n hn' pid hpid
      · simp only [List.mem_singleton] at hn'
        subst hn'
        cases hpid
    · intro p hp hrun
      rcases h5 p hp hrun with ⟨n, hn, e1, e2⟩
      exact ⟨n, List.mem_append_left _ hn, e1, e2⟩

theorem WF_updateNode {s : ClusterState} {i : String} {c : Option Int}
    (hWF : WF s) : WF (updateNode s i c).state := by
  unfold updateNode
  cases hg : getBy Node.id i s.nodes with
  | none => exact hWF
  | some node =>
    cases c with
    | none => exact hWF
    | some v =>
      by_cases hlt : v < totalPodCpu s node.pods
      · simp only [hlt, if_true]
        exact hWF
      · simp only [hlt, if_false]
        exact WF_updBy_node_inert hWF (fun n => rfl) (fun n => rfl)

theorem WF_removeNode {s : ClusterState} {i : String} (hWF : WF s) :
    WF (removeNode s i).state := by
  unfold removeNode
  cases hg : getBy Node.id i s.nodes with
  | none => exact hWF
  | some node =>
    by_cases hb : node.pods.length > 0
    · simp only [hb, if_true]
      exact hWF
    · simp only [hb, if_false]
      obtain ⟨h1, h2, h3, h4, h5⟩ := hWF
      have hempty : node.pods = [] := List.length_eq_zero.mp (by omega)
      refine ⟨?_, h2, ?_, ?_, ?_⟩
      · exact List.Nodup.sublist map_key_delBy_sublist h1
      · intro n hn
        exact h3 n (mem_delBy.mp hn).1
      · intro n hn pid hpid
        exact h4 n (mem_delBy.mp hn).1 pid hpid
      · intro p hp hrun
        rcases h5 p hp hrun with ⟨n, hn, e1, e2⟩
        refine ⟨n, mem_delBy.mpr ⟨hn, ?_⟩, e1, e2⟩
        intro hni
        have hnode_mem := (getBy_mem hg).1
        have heq : n = node := key_inj_of_nodup h1 hn hnode_mem
          (by rw [hni, (getBy_mem hg).2])
        rw [heq, hempty] at e2
        cases e2

theorem WF_updatePod {s : ClusterState} {pid : String} {r : Option Int}
    (hWF : WF s) : WF (updatePod s pid r).state := by
  cases hg : getBy Pod.id pid s.pods with
  | none =>
    simp only [updatePod, hg]
    exact hWF
  | some pod =>
    cases r with
    | none =>
      simp only [updatePod, hg]
      exact hWF
    | some v =>
      cases hn : getBy Node.id pod.nodeId s.nodes with
      | none =>
        simp only [updatePod, hg, hn]
        exact hWF
      | some node =>
        simp only [updatePod, hg, hn]
        by_cases hlt : node.availableCpuCores < v - pod.cpuRequirement
        · simp only [hlt, if_true]
          exact hWF
        · simp only [hlt, if_false]
          refine WF_updBy_pod_inert (WF_updBy_node_inert hWF ?_ ?_) ?_ ?_ ?_ <;>
            intro x <;> rfl

theorem WF_recordHeartbeat {s : ClusterState} {i : String} {now : Int}
    (hWF : WF s) : WF (recordHeartbeat s i now).state := by
  unfold recordHeartbeat
  cases hg : getBy Node.id i s.nodes with
  | none => exact hWF
  | some node => exact WF_updBy_node_inert hWF (fun n => rfl) (fun n => rfl)

theorem WF_markUnhealthy {s : ClusterState} {i : String} (hWF : WF s) :
    WF (markUnhealthy s i) :=
  WF_updBy_node_inert hWF (fun n => rfl) (fun n => rfl)

theorem WF_schedulePod {s : ClusterState} {pid : String} {d : Int}
    {launch : Option String} {now : Int}
    (hWF : WF s) (hfresh : getBy Pod.id pid s.pods = none) :
    WF (schedulePod s pid d launch now).state := by
  cases hf : findSuitableNode s d with
  | none =>
    simp only [schedulePod, hf]
    exact hWF
  | some nid =>
    obtain ⟨h1, h2, h3, h4, h5⟩ := hWF
    have hfreshN : ∀ m ∈ s.nodes, pid ∉ m.pods := by
      intro m hm hmem
      rcases h4 m hm pid hmem with ⟨p, hp, e1, -, -⟩
      have := getBy_unique h2 hp e1
      rw [hfresh] at this
      cases this
    cases launch with
    | none =>
      rw [schedulePod_rollback hf hfreshN]
      exact ⟨h1, h2, h3, h4, h5⟩
    | some cid =>
      rcases findSuitableNode_some hf with ⟨nodeN, hnodeN, hnid, -, -⟩
      simp only [schedulePod, hf]
      refine ⟨?_, ?_, ?_, ?_, ?_⟩
      · rw [map_key_updBy ?hc1]
        case hc1 => intro a; rfl
        exact h1
      · rw [List.map_append]
        refine List.Nodup.append h2 (List.nodup_singleton _) ?_
        intro x hx hx2
        simp only [List.map_cons, List.map_nil, List.mem_singleton] at hx2
        subst hx2
        rcases List.mem_map.mp hx with ⟨q, hq, hqi⟩
        have := getBy_unique h2 hq hqi
        rw [hfresh] at this
        cases this
      · intro n hn
        rcases mem_updBy.mp hn with ⟨a, ha, rfl⟩
        by_cases hk : a.id = nid
        · rw [if_pos hk]
          refine List.Nodup.append (h3 a ha) (List.nodup_singleton _) ?_
          intro x hx hx2
          simp only [List.mem_singleton] at hx2
          subst hx2
          exact hfreshN a ha hx
        · rw [if_neg hk]
          exact h3 a ha
      · intro n hn pid' hpid'
        rcases mem_updBy.mp hn with ⟨a, ha, rfl⟩
        by_cases hk : a.id = nid
        · rw [if_pos hk] at hpid' ⊢
          rcases List.mem_append.mp hpid' with hold | hnew
          · rcases h4 a ha pid' hold with ⟨p, hp, e1, e2, e3⟩
            exact ⟨p, List.mem_append_left _ hp, e1, e2, e3⟩
          · simp only [List.mem_singleton] at hnew
            exact ⟨⟨pid, d, nid, cid, "running", now⟩,
              List.mem_append_right _ (by simp), hnew.symm, hk.symm, rfl⟩
        · rw [if_neg hk] at hpid' ⊢
          rcases h4 a ha pid' hpid' with ⟨p, hp, e1, e2, e3⟩
          exact ⟨p, List.mem_append_left _ hp, e1, e2, e3⟩
      · intro q hq hrun
        rcases List.mem_append.mp hq with hold | hnew
        · rcases h5 q hold hrun with ⟨n, hn, e1, e2⟩
          by_cases hk : n.id = nid
          · refine ⟨_, updBy_mem_of_mem hn, ?_, ?_⟩
            · rw [if_pos hk]
              exact e1
            · rw [if_pos hk]
              exact List.mem_append_left _ e2
          · refine ⟨_, updBy_mem_of_mem hn, ?_, ?_⟩
            · rw [if_neg hk]
              exact e1
            · rw [if_neg hk]
              exact e2
        · simp only [List.mem_singleton] at hnew
          subst hnew
          refine ⟨_, updBy_mem_of_mem hnodeN, ?_, ?_⟩
          · rw [if_pos hnid]
            exact hnid
          · rw [if_pos hnid]
            exact List.mem_append_right _ (by simp)

theorem WF_removePod {s : ClusterState} {pid : String} {ok : Bool}
    (hWF : WF s) : WF (removePod s pid ok).state := by
  cases hg : getBy Pod.id pid s.pods with
  | none =>
    simp only [removePod, hg]
    exact hWF
  | some pod =>
    obtain ⟨h1, h2, h3, h4, h5⟩ := hWF
    cases hn : getBy Node.id pod.nodeId s.nodes with
    | none =>
      simp only [removePod, hg, hn]
      refine ⟨h1, ?_, h3, ?_, ?_⟩
      · exact List.Nodup.sublist map_key_delBy_sublist h2
      · intro n hn' pid' hpid'
        rcases h4 n hn' pid' hpid' with ⟨p, hp, e1, e2, e3⟩
        refine ⟨p, mem_delBy.mpr ⟨hp, ?_⟩, e1, e2, e3⟩
        intro hpi
        have hpp : p = pod := key_inj_of_nodup h2 hp (getBy_mem hg).1
          (by rw [hpi, (getBy_mem hg).2])
        exact getBy_eq_none.mp hn n hn' (by rw [← e2, hpp])
      · intro q hq hrun
        exact h5 q (mem_delBy.mp hq).1 hrun
    | some node =>
      simp only [removePod, hg, hn]
      refine ⟨?_, ?_, ?_, ?_, ?_⟩
      · rw [map_key_updBy ?hc2]
        case hc2 => intro a; rfl
        exact h1
      · exact List.Nodup.sublist map_key_delBy_sublist h2
      · intro n hn'
        rcases mem_updBy.mp hn' with ⟨a, ha, rfl⟩
        by_cases hk : a.id = pod.nodeId
        · rw [if_pos hk]
          exact List.Nodup.filter _ (h3 a ha)
        · rw [if_neg hk]
          exact h3 a ha
      · intro n hn' pid' hpid'
        rcases mem_updBy.mp hn' with ⟨a, ha, rfl⟩
        by_cases hk : a.id = pod.nodeId
        · rw [if_pos hk] at hpid' ⊢
          have hmemf := List.mem_filter.mp hpid'
          have hne : pid' ≠ pid := by simpa using hmemf.2
          rcases h4 a ha pid' hmemf.1 with ⟨p, hp, e1, e2, e3⟩
          exact ⟨p, mem_delBy.mpr ⟨hp, by rw [e1]; exact hne⟩, e1, e2, e3⟩
        · rw [if_neg hk] at hpid' ⊢
          rcases h4 a ha pid' hpid' with ⟨p, hp, e1, e2, e3⟩
          have hne : p.id ≠ pid := by
            intro hpi
            have hpp : p = pod := key_inj_of_nodup h2 hp (getBy_mem hg).1
              (by rw [hpi, (getBy_mem hg).2])
            exact hk (by rw [← e2, hpp])
          exact ⟨p, mem_delBy.mpr ⟨hp, hne⟩, e1, e2, e3⟩
      · intro q hq hrun
        rcases mem_delBy.mp hq with ⟨hq', hqne⟩
        rcases h5 q hq' hrun with ⟨n, hn', e1, e2⟩
        by_cases hk : n.id = pod.nodeId
        · refine ⟨_, updBy_mem_of_mem hn', ?_, ?_⟩
          · rw [if_pos hk]
            exact e1
          · rw [if_pos hk]
            exact List.mem_filter.mpr ⟨e2, by simpa using hqne⟩
        · refine ⟨_, updBy_mem_of_mem hn', ?_, ?_⟩
          · rw [if_neg hk]
            exact e1
          · rw [if_neg hk]
            exact e2

theorem WF_reschedulePod {s : ClusterState} {pid : String} {ok : Bool}
    {launch : Option String} (hWF : WF s)
    (hguard : ∃ n0 ∈ s.nodes, pid ∈ n0.pods) :
    WF (reschedulePod s pid ok launch).state := by
  obtain ⟨h1, h2, h3, h4, h5⟩ := hWF
  rcases hguard with ⟨n0, hn0, hpidn0⟩
  rcases h4 n0 hn0 pid hpidn0 with ⟨pod, hpod, hpid_eq, hpnid, hprun⟩
  have hgetP : getBy Pod.id pid s.pods = some pod := getBy_unique h2 hpod hpid_eq
  have hgetN : getBy Node.id pod.nodeId s.nodes = some n0 := getBy_unique h1 hn0 hpnid.symm
  have honly : ∀ m ∈ s.nodes, m.id ≠ pod.nodeId → pid ∉ m.pods := by
    intro m hm hne hmem
    rcases h4 m hm pid hmem with ⟨p', hp', e1, e2, -⟩
    have hpp : p' = pod := key_inj_of_nodup h2 hp' hpod (by rw [e1, hpid_eq])
    exact hne (by rw [← e2, hpp])
  cases hf : findSuitableNode
      { s with
          nodes := updBy Node.id pod.nodeId
              (fun n => { n with
                  pods := n.pods.filter (fun i => i != pid),
                  availableCpuCores := n.availableCpuCores + pod.cpuRequirement })
              s.nodes }
      pod.cpuRequirement with
  | none =>
    rw [reschedulePod_noCandidate_eq hgetP hgetN hf]
    refine ⟨?_, ?_, ?_, ?_, ?_⟩
    · rw [map_key_updBy ?hr1]
      case hr1 => intro a; rfl
      exact h1
    · rw [map_key_updBy ?hr2]
      case hr2 => intro a; rfl
      exact h2
    · intro n hn
      rcases mem_updBy.mp hn with ⟨a, ha, rfl⟩
      by_cases hk : a.id = pod.nodeId
      · rw [if_pos hk]
        exact List.Nodup.filter _ (h3 a ha)
      · rw [if_neg hk]
        exact h3 a ha
    · intro n hn pid' hpid'
      rcases mem_updBy.mp hn with ⟨a, ha, rfl⟩
      by_cases hk : a.id = pod.nodeId
      · rw [if_pos hk] at hpid' ⊢
        have hmemf := List.mem_filter.mp hpid'
        have hne : pid' ≠ pid := by simpa using hmemf.2
        rcases h4 a ha pid' hmemf.1 with ⟨p', hp', e1, e2, e3⟩
        exact ⟨p', mem_updBy.mpr ⟨p', hp', (if_neg (by rw [e1]; exact hne)).symm⟩,
          e1, e2, e3⟩
      · rw [if_neg hk] at hpid' ⊢
        have hne : pid' ≠ pid := fun hc => honly a ha hk (hc ▸ hpid')
        rcases h4 a ha pid' hpid' with ⟨p', hp', e1, e2, e3⟩
        exact ⟨p', mem_updBy.mpr ⟨p', hp', (if_neg (by rw [e1]; exact hne)).symm⟩,
          e1, e2, e3⟩
    · intro q' hq' hrun'
      rcases mem_updBy.mp hq' with ⟨q, hq, rfl⟩
      by_cases hk : q.id = pid
      · rw [if_pos hk] at hrun'
        simp at hrun'
      · rw [if_neg hk] at hrun' ⊢
        rcases h5 q hq hrun' with ⟨n, hn, e1, e2⟩
        by_cases hk2 : n.id = pod.nodeId
        · refine ⟨_, updBy_mem_of_mem hn, ?_, ?_⟩
          · rw [if_pos hk2]
            exact e1
          · rw [if_pos hk2]
            exact List.mem_filter.mpr ⟨e2, by simpa using hk⟩
        · refine ⟨_, updBy_mem_of_mem hn, ?_, ?_⟩
          · rw [if_neg hk2]
            exact e1
          · rw [if_neg hk2]
            exact e2
  | some newNid =>
    rcases findSuitableNode_some hf with ⟨nn, hnnmem, hnnid, -, -⟩
    cases launch with
    | none =>
      rw [reschedulePod_launchFail_restore hgetP h2 honly hgetN hf]
      refine ⟨?_, h2, ?_, ?_, ?_⟩
      · rw [map_key_updBy ?hr3]
        case hr3 => intro a; rfl
        exact h1
      · intro n hn
        rcases mem_updBy.mp hn with ⟨a, ha, rfl⟩
        by_cases hk : a.id = pod.nodeId
        · rw [if_pos hk]
          refine List.Nodup.append (List.Nodup.filter _ (h3 a ha))
            (List.nodup_singleton _) ?_
          intro x hx hx2
          simp only [List.mem_singleton] at hx2
          subst hx2
          exact not_mem_filter_bne hx
        · rw [if_neg hk]
          exact h3 a ha
      · intro n hn pid' hpid'
        rcases mem_updBy.mp hn with ⟨a, ha, rfl⟩
        by_cases hk : a.id = pod.nodeId
        · rw [if_pos hk] at hpid' ⊢
          rcases List.mem_append.mp hpid' with hold | hnew
          · exact h4 a ha pid' (List.mem_filter.mp hold).1
          · simp only [List.mem_singleton] at hnew
            exact ⟨pod, hpod, by rw [hnew]; exact hpid_eq, hk.symm, hprun⟩
        · rw [if_neg hk] at hpid' ⊢
          exact h4 a ha pid' hpid'
      · intro q hq hrun
        rcases h5 q hq hrun with ⟨n, hn, e1, e2⟩
        by_cases hk : n.id = pod.nodeId
        · refine ⟨_, updBy_mem_of_mem hn, ?_, ?_⟩
          · rw [if_pos hk]
            exact e1
          · rw [if_pos hk]
            by_cases hq2 : q.id = pid
            · exact List.mem_append_right _ (by simp [hq2])
            · exact List.mem_append_left _
                (List.mem_filter.mpr ⟨e2, by simpa using hq2⟩)
        · refine ⟨_, updBy_mem_of_mem hn, ?_, ?_⟩
          · rw [if_neg hk]
            exact e1
          · rw [if_neg hk]
            exact e2
    | some cid2 =>
      simp only [reschedulePod, hgetP, hgetN, Option.map_some']
      rw [(getBy_mem hgetN).2]
      simp only [hf]
      rw [updBy_updBy ?hr4]
      case hr4 => intro a; rfl
      refine ⟨?_, ?_, ?_, ?_, ?_⟩
      · rw [map_key_updBy ?hr5]
        case hr5 => intro a; rfl
        rw [map_key_updBy ?hr6]
        case hr6 => intro a; rfl
        exact h1
      · rw [map_key_updBy ?hr7]
        case hr7 => intro a; rfl
        exact h2
      · intro n hn
        rcases mem_updBy.mp hn with ⟨m, hm, rfl⟩
        rcases mem_updBy.mp hm with ⟨a, ha, rfl⟩
        by_cases hk1 : a.id = pod.nodeId
        · rw [if_pos hk1]
          by_cases hk2 : a.id = newNid
          · rw [if_pos hk2]
            refine List.Nodup.append (List.Nodup.filter _ (h3 a ha))
              (List.nodup_singleton _) ?_
            intro x hx hx2
            simp only [List.mem_singleton] at hx2
            subst hx2
            exact not_mem_filter_bne hx
          · rw [if_neg hk2]
            exact List.Nodup.filter _ (h3 a ha)
        · rw [if_neg hk1]
          by_cases hk2 : a.id = newNid
          · rw [if_pos hk2]
            refine List.Nodup.append (h3 a ha) (List.nodup_singleton _) ?_
            intro x hx hx2
            simp only [List.mem_singleton] at hx2
            subst hx2
            exact honly a ha hk1 hx
          · rw [if_neg hk2]
            exact h3 a ha
      · intro n hn pid' hpid'
        rcases mem_updBy.mp hn with ⟨m, hm, rfl⟩
        rcases mem_updBy.mp hm with ⟨a, ha, rfl⟩
        by_cases hk1 : a.id = pod.nodeId
        · rw [if_pos hk1] at hpid' ⊢
          by_cases hk2 : a.id = newNid
          · rw [if_pos hk2] at hpid' ⊢
            rcases List.mem_append.mp hpid' with hold | hnew
            · have hmemf := List.mem_filter.mp hold
              have hne : pid' ≠ pid := by simpa using hmemf.2
              rcases h4 a ha pid' hmemf.1 with ⟨p', hp', e1, e2, e3⟩
              exact ⟨p', mem_updBy.mpr ⟨p', hp', (if_neg (by rw [e1]; exact hne)).symm⟩,
                e1, e2, e3⟩
            · simp only [List.mem_singleton] at hnew
              refine ⟨_, mem_updBy.mpr ⟨pod, hpod, (if_pos hpid_eq).symm⟩,
                ?_, ?_, ?_⟩
              · rw [hnew]
                exact hpid_eq
              · exact hk2.symm
              · rfl
          · rw [if_neg hk2] at hpid' ⊢
            have hmemf := List.mem_filter.mp hpid'
            have hne : pid' ≠ pid := by simpa using hmemf.2
            rcases h4 a ha pid' hmemf.1 with ⟨p', hp', e1, e2, e3⟩
            exact ⟨p', mem_updBy.mpr ⟨p', hp', (if_neg (by rw [e1]; exact hne)).symm⟩,
              e1, e2, e3⟩
        · rw [if_neg hk1] at hpid' ⊢
          by_cases hk2 : a.id = newNid
          · rw [if_pos hk2] at hpid' ⊢
            rcases List.mem_append.mp hpid' with hold | hnew
            · have hne : pid' ≠ pid := fun hc => honly a ha hk1 (hc ▸ hold)
              rcases h4 a ha pid' hold with ⟨p', hp', e1, e2, e3⟩
              exact ⟨p', mem_updBy.mpr ⟨p', hp', (if_neg (by rw [e1]; exact hne)).symm⟩,
                e1, e2, e3⟩
            · simp only [List.mem_singleton] at hnew
              refine ⟨_, mem_updBy.mpr ⟨pod, hpod, (if_pos hpid_eq).symm⟩,
                ?_, ?_, ?_⟩
              · rw [hnew]
                exact hpid_eq
              · exact hk2.symm
              · rfl
          · rw [if_neg hk2] at hpid' ⊢
            have hne : pid' ≠ pid := fun hc => honly a ha hk1 (hc ▸ hpid')
            rcases h4 a ha pid' hpid' with ⟨p', hp', e1, e2, e3⟩
            exact ⟨p', mem_updBy.mpr ⟨p', hp', (if_neg (by rw [e1]; exact hne)).symm⟩,
              e1, e2, e3⟩
      · intro q2 hq2 hrun2
        rcases mem_updBy.mp hq2 with ⟨q, hq, rfl⟩
        by_cases hkq : q.id = pid
        · rw [if_pos hkq] at hrun2 ⊢
          refine ⟨_, updBy_mem_of_mem hnnmem, ?_, ?_⟩
          · rw [if_pos hnnid]
            exact hnnid
          · rw [if_pos hnnid]
            exact List.mem_append_right _ (by simp [hkq])
        · rw [if_neg hkq] at hrun2 ⊢
          rcases h5 q hq hrun2 with ⟨n, hn, e1, e2⟩
          by_cases hk1 : n.id = pod.nodeId
          · refine ⟨_, updBy_mem_of_mem (updBy_mem_of_mem hn), ?_, ?_⟩
            · rw [if_pos hk1]
              by_cases hk2 : n.id = newNid
              · rw [if_pos hk2]
                exact e1
              · rw [if_neg hk2]
                exact e1
            · rw [if_pos hk1]
              by_cases hk2 : n.id = newNid
              · rw [if_pos hk2]
                exact List.mem_append_left _
                  (List.mem_filter.mpr ⟨e2, by simpa using hkq⟩)
              · rw [if_neg hk2]
                exact List.mem_filter.mpr ⟨e2, by simpa using hkq⟩
          · refine ⟨_, updBy_mem_of_mem (updBy_mem_of_mem hn), ?_, ?_⟩
            · rw [if_neg hk1]
              by_cases hk2 : n.id = newNid
              · rw [if_pos hk2]
                exact e1
              · rw [if_neg hk2]
                exact e1
            · rw [if_neg hk1]
              by_cases hk2 : n.id = newNid
              · rw [if_pos hk2]
                exact List.mem_append_left _ e2
              · rw [if_neg hk2]
                exact e2

theorem WF_setAlgorithm {s : ClusterState} {a : String} (hWF : WF s) :
    WF (setSchedulingAlgorithm s a).state := by
  unfold setSchedulingAlgorithm
  by_cases h : a = "first-fit" ∨ a = "best-fit" ∨ a = "worst-fit"
  · simp only [h, if_true]
    exact hWF
  · simp only [h, if_false]
    exact hWF

theorem WF_initState : WF initState := by
  refine ⟨List.nodup_nil, List.nodup_nil, ?_, ?_, ?_⟩ <;> intro x hx <;> cases hx

theorem WF_applyOp {s : ClusterState} {op : Op} (hWF : WF s)
    (hv : validOp s op = true) : WF (applyOp s op) := by
  cases op with
  | opAddNode i c cid now => exact WF_addNode hWF
  | opUpdateNode i c => exact WF_updateNode hWF
  | opRemoveNode i => exact WF_removeNode hWF
  | opSchedulePod pid d launch now =>
    have h := of_decide_eq_true hv
    exact WF_schedulePod hWF h.2
  | opUpdatePod pid r => exact WF_updatePod hWF
  | opRemovePod pid ok => exact WF_removePod hWF
  | opReschedulePod pid ok launch =>
    exact WF_reschedulePod hWF (of_decide_eq_true hv)
  | opHeartbeat i now => exact WF_recordHeartbeat hWF
  | opMarkUnhealthy i now => exact WF_markUnhealthy hWF
  | opSetAlgorithm a => exact WF_setAlgorithm hWF

/-- Every quiescent (reachable) state of the server is well-formed. -/
theorem Reachable_WF {s : ClusterState} (h : Reachable s) : WF s := by
  induction h with
  | init => exact WF_initState
  | step s op hr hv ih => exact WF_applyOp ih hv

theorem reach_cexS1 : Reachable cexS1 := by
  have h := Reachable.step initState (.opAddNode "A" 4 "cA" 0) Reachable.init (by decide)
  have e : applyOp initState (.opAddNode "A" 4 "cA" 0) = cexS1 := by decide
  rw [e] at h
  exact h

theorem reach_cexS2 : Reachable cexS2 := by
  have h := Reachable.step cexS1 (.opSchedulePod "p" 4 (some "c1") 0) reach_cexS1 (by decide)
  have e : applyOp cexS1 (.opSchedulePod "p" 4 (some "c1") 0) = cexS2 := by decide
  rw [e] at h
  exact h

theorem reach_cexS3 : Reachable cexS3 := by
  have h := Reachable.step cexS2 (.opMarkUnhealthy "A" 20000) reach_cexS2 (by decide)
  have e : applyOp cexS2 (.opMarkUnhealthy "A" 20000) = cexS3 := by decide
  rw [e] at h
  exact h

theorem reach_cexS4 : Reachable cexS4 := by
  have h := Reachable.step cexS3 (.opReschedulePod "p" true none) reach_cexS3 (by decide)
  have e : applyOp cexS3 (.opReschedulePod "p" true none) = cexS4 := by decide
  rw [e] at h
  exact h

theorem reach_cexS5 : Reachable cexS5 := by
  have h := Reachable.step cexS4 (.opUpdatePod "p" (some 2)) reach_cexS4 (by decide)
  have e : applyOp cexS4 (.opUpdatePod "p" (some 2)) = cexS5 := by decide
  rw [e] at h
  exact h

/-- **C1** (capacity-accounting invariant — violated by the code): the
Scenario-C trace followed by a demand update of the pending pod is reachable
by the public operations with all route validations satisfied, yet its final
quiescent state breaks the claimed invariant: node `A` has
`availableCpuCores = 6` with `cpuCores = 4` and an empty pod list, so
`availableCapacity + Σ cpuRequirement = 6 ≠ 4` and
`availableCapacity ≤ totalCapacity` fails.  The culprit is
`PodScheduler.updatePod` (and likewise `removePod`), which adjusts the
node's capacity bookkeeping without checking that the pod is still listed in
the node's `pods` array. -/
theorem C1_capacity_invariant_violated :
    Reachable cexS5 ∧
    ¬ (∀ n ∈ cexS5.nodes,
        n.availableCpuCores + totalPodCpu cexS5 n.pods = n.cpuCores ∧
        0 ≤ n.availableCpuCores ∧ n.availableCpuCores ≤ n.cpuCores) :=
  ⟨reach_cexS5, by decide⟩

/-- **C2** (bidirectional-relation invariant — as stated, refuted): the
Scenario-C state is reachable, and in it the pending workload `"p"` still
carries `nodeId = "A"` while node `A`'s `pods` list is empty, so the claimed
"for every existing workload, its nodeId refers to an existing node whose
workloadIds contains the workload's id" is false. -/
theorem C2_counterexample_pending_detached :
    Reachable cexS4 ∧
    ¬ (∀ p ∈ cexS4.pods, ∃ n ∈ cexS4.nodes, n.id = p.nodeId ∧ p.id ∈ n.pods) :=
  ⟨reach_cexS4, by decide⟩

/-- **C2** (amended): in every quiescent (reachable) state, every id in any
node's `pods` list belongs to an existing pod record whose `nodeId` points
back at that node (so no node lists an identity with no corresponding
workload record), and every *running* workload's `nodeId` refers to an
existing node whose `pods` list contains the workload's id.  The amendment
restricts the workload-to-node direction to running workloads: a workload
left `"pending"` (or `"error"`) by a failed relocation is deliberately
detached — the spec's own Scenario C describes the detached state — and its
stale `nodeId` is excepted. -/
theorem C2_bidirectional_relation_amended (s : ClusterState) (h : Reachable s) :
    (∀ n ∈ s.nodes, ∀ pid ∈ n.pods, ∃ p ∈ s.pods, p.id = pid ∧ p.nodeId = n.id) ∧
    (∀ p ∈ s.pods, p.status = "running" →
      ∃ n ∈ s.nodes, n.id = p.nodeId ∧ p.id ∈ n.pods) := by
  obtain ⟨-, -, -, h4, h5⟩ := Reachable_WF h
  refine ⟨?_, h5⟩
  intro n hn pid hpid
  rcases h4 n hn pid hpid with ⟨p, hp, e1, e2, -⟩
  exact ⟨p, hp, e1, e2⟩

theorem C2_witness :
    Reachable cexS2 ∧
    ((∀ n ∈ cexS2.nodes, ∀ pid ∈ n.pods,
        ∃ p ∈ cexS2.pods, p.id = pid ∧ p.nodeId = n.id) ∧
     (∀ p ∈ cexS2.pods, p.status = "running" →
        ∃ n ∈ cexS2.nodes, n.id = p.nodeId ∧ p.id ∈ n.pods)) :=
  ⟨reach_cexS2, C2_bidirectional_relation_amended cexS2 reach_cexS2⟩

end KubeSim
